import Mathlib

/-!
Shallow embedding of the gramgraph IR pipeline
(src/resolve.rs, src/transform.rs, src/scale.rs, src/compiler.rs).

Rust `f64` values are modelled as `ℚ` (the pipeline only adds, subtracts,
multiplies and divides them); the scale builder's `f64::INFINITY` /
`f64::NEG_INFINITY` sentinels are modelled by an extended-rational type `XQ`.
Rust `HashMap`s are modelled observationally: the code only reads them through
`get`/`contains_key` after building them by `insert`, so an association list
with first-match lookup (new entries prepended) has the same observable
behaviour.  `str::parse::<f64>` is an external library function; it is taken
as a parameter `parse : String → Option ℚ` of the transformer.
-/

namespace GramGraph

/-! ### parser/ast.rs : the input AST -/

/-- `AestheticValue<T>`: a fixed literal or a data-driven column mapping. -/
inductive AestheticValue (α : Type) where
  | fixed (v : α)
  | mapped (col : String)
deriving DecidableEq, Repr

/-- Global aesthetic mappings (`Aesthetics`). -/
structure Aesthetics where
  x : String
  y : String
  color : Option String
  size : Option String
  shape : Option String
  alpha : Option String
deriving DecidableEq, Repr

/-- `LineLayer`. -/
structure LineLayer where
  x : Option String
  y : Option String
  color : Option (AestheticValue String)
  width : Option (AestheticValue ℚ)
  alpha : Option (AestheticValue ℚ)
deriving DecidableEq, Repr

/-- `PointLayer`. -/
structure PointLayer where
  x : Option String
  y : Option String
  color : Option (AestheticValue String)
  size : Option (AestheticValue ℚ)
  shape : Option (AestheticValue String)
  alpha : Option (AestheticValue ℚ)
deriving DecidableEq, Repr

/-- `BarPosition`. -/
inductive BarPosition where
  | identity
  | dodge
  | stack
deriving DecidableEq, Repr

/-- `BarLayer`. -/
structure BarLayer where
  x : Option String
  y : Option String
  color : Option (AestheticValue String)
  alpha : Option (AestheticValue ℚ)
  width : Option (AestheticValue ℚ)
  position : BarPosition
deriving DecidableEq, Repr

/-- `Layer`: the closed sum of geometry kinds. -/
inductive Layer where
  | line (l : LineLayer)
  | point (p : PointLayer)
  | bar (b : BarLayer)
deriving DecidableEq, Repr

/-- `FacetScales`: the four scale-sharing policies. -/
inductive FacetScales where
  | fixed
  | freeX
  | freeY
  | free
deriving DecidableEq, Repr

/-! ### csv_reader.rs : the in-memory table -/

/-- One data row: a list of string cells. -/
abbrev Row := List String

/-- `CsvData`: headers plus string rows. -/
structure CsvData where
  headers : List String
  rows : List Row
deriving DecidableEq, Repr

/-! ### ir.rs : resolved spec -/

/-- `ResolvedAesthetics`: per-layer resolved column names. -/
structure ResolvedAesthetics where
  x_col : String
  y_col : String
  color : Option String
  size : Option String
  shape : Option String
  alpha : Option String
deriving DecidableEq, Repr

/-- `ResolvedLayer`. -/
structure ResolvedLayer where
  original_layer : Layer
  aesthetics : ResolvedAesthetics
deriving DecidableEq, Repr

/-- `ResolvedFacet`. -/
structure ResolvedFacet where
  col : String
  ncol : Option Nat
  scales : FacetScales
deriving DecidableEq, Repr

/-- `ResolvedSpec`. -/
structure ResolvedSpec where
  layers : List ResolvedLayer
  facet : Option ResolvedFacet
deriving DecidableEq, Repr

/-! ### resolve.rs : the aesthetic resolver -/

/-- `extract_mapped_string`: the column of a `Mapped` value, `None` otherwise. -/
def extract_mapped_string (value : Option (AestheticValue String)) : Option String :=
  match value with
  | some (.mapped col) => some col
  | _ => none

/-- `extract_mapped_string_from_f64`. -/
def extract_mapped_string_from_f64 (value : Option (AestheticValue ℚ)) : Option String :=
  match value with
  | some (.mapped col) => some col
  | _ => none

/-- `resolve_positional`: layer-level x/y override wins over the global block. -/
def resolve_positional (layer : Layer) (global_aes : Option Aesthetics) :
    Except String (String × String) := do
  let (x_override, y_override) :=
    match layer with
    | .line l => (l.x, l.y)
    | .point p => (p.x, p.y)
    | .bar b => (b.x, b.y)
  let x_col ←
    match x_override with
    | some x => pure x
    | none =>
      match global_aes with
      | some aes => pure aes.x
      | none => Except.error "No x aesthetic specified"
  let y_col ←
    match y_override with
    | some y => pure y
    | none =>
      match global_aes with
      | some aes => pure aes.y
      | none => Except.error "No y aesthetic specified"
  pure (x_col, y_col)

/-- `resolve_layer_aesthetics`: resolve mapped columns for a single layer. -/
def resolve_layer_aesthetics (layer : Layer) (global_aes : Option Aesthetics) :
    Except String ResolvedAesthetics := do
  let (x_col, y_col) ← resolve_positional layer global_aes
  let color :=
    (match layer with
     | .line l => extract_mapped_string l.color
     | .point p => extract_mapped_string p.color
     | .bar b => extract_mapped_string b.color).orElse
      (fun _ => global_aes.bind (·.color))
  let size :=
    (match layer with
     | .line l => extract_mapped_string_from_f64 l.width
     | .point p => extract_mapped_string_from_f64 p.size
     | .bar b => extract_mapped_string_from_f64 b.width).orElse
      (fun _ => global_aes.bind (·.size))
  let shape :=
    (match layer with
     | .point p => extract_mapped_string p.shape
     | _ => none).orElse
      (fun _ => global_aes.bind (·.shape))
  let alpha :=
    (match layer with
     | .line l => extract_mapped_string_from_f64 l.alpha
     | .point p => extract_mapped_string_from_f64 p.alpha
     | .bar b => extract_mapped_string_from_f64 b.alpha).orElse
      (fun _ => global_aes.bind (·.alpha))
  pure { x_col := x_col, y_col := y_col, color := color, size := size,
         shape := shape, alpha := alpha }

/-! ### graph.rs : style records (f64 fields as ℚ) -/

/-- `LineStyle`. -/
structure LineStyle where
  color : Option String
  width : Option ℚ
  alpha : Option ℚ
deriving DecidableEq, Repr

/-- `PointStyle`. -/
structure PointStyle where
  color : Option String
  size : Option ℚ
  shape : Option String
  alpha : Option ℚ
deriving DecidableEq, Repr

/-- `BarStyle`. -/
structure BarStyle where
  color : Option String
  alpha : Option ℚ
  width : Option ℚ
deriving DecidableEq, Repr

/-! ### ir.rs : render data -/

/-- `RenderStyle`: the resolved style tagged by geometry kind. -/
inductive RenderStyle where
  | line (s : LineStyle)
  | point (s : PointStyle)
  | bar (s : BarStyle)
deriving DecidableEq, Repr

/-- `GroupData`: the atomic rendering unit. -/
structure GroupData where
  key : String
  x : List ℚ
  y : List ℚ
  y_start : List ℚ
  x_categories : Option (List String)
  style : RenderStyle
deriving DecidableEq, Repr

/-- `LayerData`. -/
structure LayerData where
  groups : List GroupData
deriving DecidableEq, Repr

/-- `PanelData`. -/
structure PanelData where
  index : Nat
  layers : List LayerData
deriving DecidableEq, Repr

/-- `FacetLayout`. -/
structure FacetLayout where
  nrow : Nat
  ncol : Nat
  panel_titles : List String
deriving DecidableEq, Repr

/-- `RenderData`. -/
structure RenderData where
  panels : List PanelData
  facet_layout : FacetLayout
deriving DecidableEq, Repr

/-! ### palette.rs : deterministic palettes.
`HashMap`s built by distinct-key inserts are modelled as association lists
read through `List.lookup`. -/

/-- `ColorPalette::category10()`. -/
def category10 : List String :=
  ["blue", "orange", "green", "red", "purple",
   "brown", "pink", "gray", "olive", "cyan"]

/-- `ColorPalette::assign_colors` over category10: key `i` gets color `i % 10`. -/
def assign_colors (group_keys : List String) : List (String × String) :=
  group_keys.enum.map (fun p => (p.2, category10.getD (p.1 % category10.length) ""))

/-- `SizePalette::default_range().assign_sizes`: sizes 3.0 to 15.0, evenly
distributed over the keys; a single key gets the midpoint. -/
def assign_sizes (group_keys : List String) : List (String × ℚ) :=
  match group_keys with
  | [] => []
  | [k] => [(k, (3 + 15) / 2)]
  | _ =>
    group_keys.enum.map (fun p =>
      (p.2, 3 + (15 - 3) * ((p.1 : ℚ) / ((group_keys.length : ℚ) - 1))))

/-- `ShapePalette::default_shapes()`. -/
def default_shapes : List String :=
  ["circle", "square", "triangle", "diamond", "cross", "star"]

/-- `ShapePalette::assign_shapes`: key `i` gets shape `i % 6`. -/
def assign_shapes (group_keys : List String) : List (String × String) :=
  group_keys.enum.map (fun p => (p.2, default_shapes.getD (p.1 % default_shapes.length) ""))

/-! ### transform.rs : the data transformer -/

/-- Lowercase one ASCII uppercase letter; other characters unchanged
(the per-byte action of Rust `to_ascii_lowercase`). -/
def asciiLower (c : Char) : Char :=
  if 65 ≤ c.toNat ∧ c.toNat ≤ 90 then Char.ofNat (c.toNat + 32) else c

/-- Rust `str::eq_ignore_ascii_case`. -/
def eq_ignore_ascii_case (a b : String) : Bool :=
  a.data.map asciiLower == b.data.map asciiLower

/-- The header lookup `headers.iter().position(|h| h.eq_ignore_ascii_case(name))`
shared by `find_col_index` and the facet-column lookup in `partition_data`:
index of the first case-insensitive match. -/
def col_position : List String → String → Option Nat
  | [], _ => none
  | h :: t, name =>
    if eq_ignore_ascii_case h name then some 0
    else (col_position t name).map (· + 1)

/-- `find_col_index`: first case-insensitive match, else `ColumnNotFound`. -/
def find_col_index (headers : List String) (name : String) : Except String Nat :=
  match col_position headers name with
  | some i => .ok i
  | none => .error ("Column not found: " ++ name)

/-- `DataPartition`. -/
structure DataPartition where
  title : String
  data : CsvData
deriving DecidableEq, Repr

/-- Lexicographic comparison of char lists by codepoint, which on UTF-8
strings coincides with Rust's byte-lexicographic `str` ordering. -/
def strListLeb : List Char → List Char → Bool
  | [], _ => true
  | _ :: _, [] => false
  | a :: as, b :: bs =>
    if a.toNat < b.toNat then true
    else if b.toNat < a.toNat then false
    else strListLeb as bs

/-- The string order Rust's `Vec::<String>::sort` uses, as a proposition. -/
def strLe (a b : String) : Prop := strListLeb a.data b.data = true

instance : DecidableRel strLe := fun a b => by unfold strLe; infer_instance

theorem strListLeb_total (as : List Char) : ∀ bs,
    strListLeb as bs = true ∨ strListLeb bs as = true := by
  induction as with
  | nil => intro bs; left; rfl
  | cons a as ih =>
    intro bs
    cases bs with
    | nil => right; rfl
    | cons b bs =>
      rcases Nat.lt_trichotomy a.toNat b.toNat with h | h | h
      · left; simp [strListLeb, h]
      · have h1 : ¬ a.toNat < b.toNat := by omega
        have h2 : ¬ b.toNat < a.toNat := by omega
        rcases ih bs with h3 | h3
        · left; simp [strListLeb, h1, h2, h3]
        · right; simp [strListLeb, h1, h2, h3]
      · right; simp [strListLeb, h]

theorem strListLeb_trans (as : List Char) : ∀ bs cs,
    strListLeb as bs = true → strListLeb bs cs = true →
      strListLeb as cs = true := by
  induction as with
  | nil => intro bs cs _ _; rfl
  | cons a as ih =>
    intro bs cs hab hbc
    cases bs with
    | nil => simp [strListLeb] at hab
    | cons b bs =>
      cases cs with
      | nil => simp [strListLeb] at hbc
      | cons c cs =>
        by_cases hac : a.toNat < c.toNat
        · simp [strListLeb, hac]
        · simp only [strListLeb] at hab hbc ⊢
          by_cases h1 : a.toNat < b.toNat
          · simp only [h1, if_true] at hab
            by_cases h3 : b.toNat < c.toNat
            · omega
            · by_cases h4 : c.toNat < b.toNat
              · simp [h3, h4] at hbc
              · omega
          · by_cases h2 : b.toNat < a.toNat
            · simp [h1, h2] at hab
            · simp only [h1, h2, if_false] at hab
              by_cases h3 : b.toNat < c.toNat
              · omega
              · by_cases h4 : c.toNat < b.toNat
                · simp [h3, h4] at hbc
                · simp only [h3, h4, if_false] at hbc
                  have h6 : ¬ c.toNat < a.toNat := by omega
                  simp only [hac, h6, if_false]
                  exact ih bs cs hab hbc

theorem strListLeb_antisymm (as : List Char) : ∀ bs,
    strListLeb as bs = true → strListLeb bs as = true → as = bs := by
  induction as with
  | nil =>
    intro bs _ hba
    cases bs with
    | nil => rfl
    | cons b bs => simp [strListLeb] at hba
  | cons a as ih =>
    intro bs hab hba
    cases bs with
    | nil => simp [strListLeb] at hab
    | cons b bs =>
      simp only [strListLeb] at hab hba
      by_cases h1 : a.toNat < b.toNat
      · have h2 : ¬ b.toNat < a.toNat := by omega
        simp [h1, h2] at hba
      · by_cases h2 : b.toNat < a.toNat
        · simp [h1, h2] at hab
        · have hn : a.toNat = b.toNat := by omega
          have hchar : a = b := by
            rw [← Char.ofNat_toNat a, ← Char.ofNat_toNat b, hn]
          subst hchar
          simp only [h1, h2, if_false] at hab hba
          rw [ih bs hab hba]

instance : IsTotal String strLe := ⟨fun a b => strListLeb_total a.data b.data⟩

instance : IsTrans String strLe :=
  ⟨fun a b c => strListLeb_trans a.data b.data c.data⟩

instance : IsAntisymm String strLe :=
  ⟨fun a b h1 h2 =>
    congrArg String.mk (strListLeb_antisymm a.data b.data h1 h2)⟩

/-- Lexicographic ascending sort of strings (Rust `Vec::sort`; the sorted
lists here have distinct elements, so stability is irrelevant). -/
def sortStr (l : List String) : List String := List.insertionSort strLe l

/-- `partition_data`: group rows by the facet column's exact string value,
panel order = lexicographically sorted keys.  Rows too short to have the
facet cell are skipped (`row.get(col_idx)` is `None`). -/
def partition_data (spec : ResolvedSpec) (csv : CsvData) :
    Except String (List DataPartition) :=
  match spec.facet with
  | some facet =>
    match col_position csv.headers facet.col with
    | none => .error ("Facet column not found: " ++ facet.col)
    | some col_idx =>
      let keys := sortStr ((csv.rows.filterMap (fun r => r.get? col_idx)).dedup)
      .ok (keys.map (fun key =>
        { title := key,
          data := { headers := csv.headers,
                    rows := csv.rows.filter (fun r => r.get? col_idx == some key) } }))
  | none => .ok [{ title := "", data := csv }]

/-- Ceiling division on ℕ (the Rust code computes `(a as f64 / b as f64).ceil()
as usize`; for the small panel counts involved the f64 arithmetic is exact,
and `0/0 → NaN as usize → 0` matches `(0 + 0 - 1) / 0 = 0` here).  Known
corner divergence: for `a > 0, b = 0` (reachable only via an explicit facet
`ncol = 0`) Rust's `(a/0.0).ceil() as usize` saturates to `usize::MAX` while
this model yields 0; no claim concerns that corner. -/
def ceilDiv (a b : Nat) : Nat := (a + b - 1) / b

/-- Ceiling of the square root (`(n as f64).sqrt().ceil() as usize`; exact for
the panel counts involved). -/
def natCeilSqrt (n : Nat) : Nat :=
  if Nat.sqrt n * Nat.sqrt n == n then Nat.sqrt n else Nat.sqrt n + 1

/-- The square-ish default grid in `calculate_grid_dimensions`. -/
def square_grid (n_panels : Nat) : Nat × Nat :=
  let cols := natCeilSqrt n_panels
  (ceilDiv n_panels cols, cols)

/-- `calculate_grid_dimensions`. -/
def calculate_grid_dimensions (n_panels : Nat) (facet : Option ResolvedFacet) :
    Nat × Nat :=
  match facet with
  | some f =>
    match f.ncol with
    | some cols => (ceilDiv n_panels cols, cols)
    | none => square_grid n_panels
  | none => square_grid n_panels

/-- The grouping column: first present among color/size/shape/alpha mappings. -/
def group_col (aes : ResolvedAesthetics) : Option String :=
  ((aes.color.orElse (fun _ => aes.size)).orElse
    (fun _ => aes.shape)).orElse (fun _ => aes.alpha)

/-- A row's group key: the grouping cell, or `"default"` when no grouping
column is mapped.  (Rust indexes `row[idx]`, a panic when the row is too
short; `getD _ ""` is the total counterpart.) -/
def rowKey (gidx : Option Nat) (row : Row) : String :=
  match gidx with
  | some i => row.getD i ""
  | none => "default"

/-- A row's raw x cell. -/
def xstr (x_idx : Nat) (row : Row) : String := row.getD x_idx ""

/-- Bar geometry forces a categorical x axis. -/
def isBarLayer : Layer → Bool
  | .bar _ => true
  | _ => false

/-- Only a bar layer with `BarPosition::Stack` stacks. -/
def is_stacked_layer : Layer → Bool
  | .bar b => b.position == .stack
  | _ => false

/-- The layer's distinct raw x strings, lexicographically sorted (the
`unique_cats` HashSet collected into `category_order` and sorted; every row
lands in exactly one group, so iterating groups' x vectors sees exactly the
rows' x cells). -/
def category_order (x_idx : Nat) (rows : List Row) : List String :=
  sortStr ((rows.map (xstr x_idx)).dedup)

/-- `x_category_map`: category string → dense index as a rational. -/
def x_category_map (order : List String) : List (String × ℚ) :=
  order.enum.map (fun p => (p.2, (p.1 : ℚ)))

/-- Resolve a raw x string to a numeric coordinate (category index, or the
parsed number; the Rust `unwrap`s are total here via `getD 0`, and are never
hit on the paths `process_layer` reaches them on). -/
def resolveX (parse : String → Option ℚ) (use_cat : Bool)
    (xmap : List (String × ℚ)) (s : String) : ℚ :=
  if use_cat then (xmap.lookup s).getD 0 else (parse s).getD 0

/-- The per-row stacking loop of `process_layer`: input `(x string, y value)`
pairs and the running `stack_offsets` map, output `(x, y_start, y_end)`
triples and the updated map.  New offsets are prepended; `List.lookup` takes
the newest entry, matching HashMap overwrite. -/
def stack_rows (is_stk use_cat : Bool) (xres : String → ℚ) :
    List (String × ℚ) → List (String × ℚ) →
      List (ℚ × ℚ × ℚ) × List (String × ℚ)
  | [], offs => ([], offs)
  | (xs, yv) :: rest, offs =>
    let xv := xres xs
    let skey := if use_cat then xs else toString xv
    let ys := if is_stk then (offs.lookup skey).getD 0 else 0
    let ye := ys + yv
    let offs1 := if is_stk then (skey, ye) :: offs else offs
    let (tl, offsF) := stack_rows is_stk use_cat xres rest offs1
    ((xv, ys, ye) :: tl, offsF)

/-- The rows of one group, in row order, as `(x string, parsed y)` pairs
(`process_layer` has already rejected unparseable y cells). -/
def group_rows (parse : String → Option ℚ) (gidx : Option Nat)
    (x_idx y_idx : Nat) (rows : List Row) (key : String) : List (String × ℚ) :=
  (rows.filter (fun r => rowKey gidx r == key)).map
    (fun r => (xstr x_idx r, (parse (r.getD y_idx "")).getD 0))

/-- `get_sorted_keys` applied to `raw_groups`: the distinct group keys,
lexicographically sorted. -/
def sorted_group_keys (gidx : Option Nat) (rows : List Row) : List String :=
  sortStr ((rows.map (rowKey gidx)).dedup)

/-- The group loop of `process_layer`: process groups in sorted-key order,
threading the `stack_offsets` map across groups. -/
def build_groups (is_stk use_cat : Bool) (xres : String → ℚ)
    (rows_of : String → List (String × ℚ)) :
    List String → List (String × ℚ) →
      List (String × List (ℚ × ℚ × ℚ)) × List (String × ℚ)
  | [], offs => ([], offs)
  | k :: ks, offs =>
    let (tl, offs1) := stack_rows is_stk use_cat xres (rows_of k) offs
    let (rest, offsF) := build_groups is_stk use_cat xres rows_of ks offs1
    ((k, tl) :: rest, offsF)

/-- `pick_color` helper of `build_style`: palette color when the channel is
mapped and the key is assigned, else the layer's fixed literal. -/
def pick_color (aes : ResolvedAesthetics) (color_map : List (String × String))
    (group_key : String) (l_color : Option (AestheticValue String)) : Option String :=
  if aes.color.isSome && (color_map.lookup group_key).isSome then
    color_map.lookup group_key
  else
    match l_color with
    | some (.fixed c) => some c
    | _ => none

/-- `pick_size` helper of `build_style`. -/
def pick_size (aes : ResolvedAesthetics) (size_map : List (String × ℚ))
    (group_key : String) (l_val : Option (AestheticValue ℚ)) : Option ℚ :=
  if aes.size.isSome && (size_map.lookup group_key).isSome then
    size_map.lookup group_key
  else
    match l_val with
    | some (.fixed v) => some v
    | _ => none

/-- `pick_alpha` helper of `build_style`: fixed literal only. -/
def pick_alpha (l_val : Option (AestheticValue ℚ)) : Option ℚ :=
  match l_val with
  | some (.fixed v) => some v
  | _ => none

/-- `build_style`: the resolved visual style of one group. -/
def build_style (group_key : String) (layer : Layer) (aes : ResolvedAesthetics)
    (color_map : List (String × String)) (size_map : List (String × ℚ))
    (shape_map : List (String × String)) : RenderStyle :=
  match layer with
  | .line l => .line
      { color := pick_color aes color_map group_key l.color,
        width := pick_size aes size_map group_key l.width,
        alpha := pick_alpha l.alpha }
  | .point p => .point
      { color := pick_color aes color_map group_key p.color,
        size := pick_size aes size_map group_key p.size,
        shape :=
          if aes.shape.isSome && (shape_map.lookup group_key).isSome then
            shape_map.lookup group_key
          else
            match p.shape with
            | some (.fixed s) => some s
            | _ => none,
        alpha := pick_alpha p.alpha }
  | .bar b => .bar
      { color := pick_color aes color_map group_key b.color,
        alpha := pick_alpha b.alpha,
        width := pick_size aes size_map group_key b.width }

/-- The x-axis-typing decision of `process_layer`: bar geometry, or some x
cell fails to parse. -/
def use_categorical (parse : String → Option ℚ) (layer : Layer) (x_idx : Nat)
    (rows : List Row) : Bool :=
  isBarLayer layer || !(rows.all (fun r => (parse (xstr x_idx r)).isSome))

/-- The grouping-column index resolution step of `process_layer`. -/
def resolve_gidx (csv : CsvData) (gcol : Option String) :
    Except String (Option Nat) :=
  match gcol with
  | some g => Except.map some (find_col_index csv.headers g)
  | none => pure none

/-- The `LayerData` that `process_layer` produces once the three column
indices are resolved and every y cell parses. -/
def process_layer_result (parse : String → Option ℚ) (layer_spec : ResolvedLayer)
    (csv : CsvData) (x_idx y_idx : Nat) (gidx : Option Nat) : LayerData :=
  let aes := layer_spec.aesthetics
  let use_cat := use_categorical parse layer_spec.original_layer x_idx csv.rows
  let order := if use_cat then category_order x_idx csv.rows else []
  let xmap := x_category_map order
  let keys := sorted_group_keys gidx csv.rows
  let color_map := assign_colors keys
  let size_map := assign_sizes keys
  let shape_map := assign_shapes keys
  let is_stk := is_stacked_layer layer_spec.original_layer
  let gs := (build_groups is_stk use_cat (resolveX parse use_cat xmap)
      (group_rows parse gidx x_idx y_idx csv.rows) keys []).1
  { groups := gs.map (fun p =>
    { key := p.1,
      x := p.2.map (·.1),
      y := p.2.map (fun t => t.2.2),
      y_start := p.2.map (fun t => t.2.1),
      x_categories := if use_cat then some order else none,
      style := build_style p.1 layer_spec.original_layer aes
                 color_map size_map shape_map }) }

/-- `process_layer`: extract, group, normalize x, stack, and style one layer. -/
def process_layer (parse : String → Option ℚ) (layer_spec : ResolvedLayer)
    (csv : CsvData) : Except String LayerData := do
  let aes := layer_spec.aesthetics
  let x_idx ← find_col_index csv.headers aes.x_col
  let y_idx ← find_col_index csv.headers aes.y_col
  let gidx ← resolve_gidx csv (group_col aes)
  if csv.rows.all (fun r => (parse (r.getD y_idx "")).isSome) then
    .ok (process_layer_result parse layer_spec csv x_idx y_idx gidx)
  else
    .error "Failed to parse Y value"

/-- `process_partition`: one panel from one facet partition. -/
def process_partition (parse : String → Option ℚ) (index : Nat)
    (partition : DataPartition) (spec : ResolvedSpec) : Except String PanelData := do
  let layers ← spec.layers.mapM (fun ls => process_layer parse ls partition.data)
  .ok { index := index, layers := layers }

/-- `apply_transformations`: the transformer's entry point. -/
def apply_transformations (parse : String → Option ℚ) (spec : ResolvedSpec)
    (csv : CsvData) : Except String RenderData := do
  let partitions ← partition_data spec csv
  let dims := calculate_grid_dimensions partitions.length spec.facet
  let facet_layout : FacetLayout :=
    { nrow := dims.1, ncol := dims.2, panel_titles := partitions.map (·.title) }
  let panels ← partitions.enum.mapM
    (fun p => process_partition parse p.1 p.2 spec)
  .ok { panels := panels, facet_layout := facet_layout }

/-- A concrete stand-in for the external Rust `str::parse::<f64>` used when
theorems are instantiated on concrete inputs: an optional `-` sign followed
by one or more ASCII digits (every concrete table below sticks to integer
literals, on which f64 parsing is exact). -/
def parseQ (s : String) : Option ℚ :=
  let core := fun (cs : List Char) =>
    if cs ≠ [] ∧ cs.all Char.isDigit then
      some ((cs.foldl (fun n c => n * 10 + (c.toNat - 48)) 0 : ℕ) : ℚ)
    else none
  match s.data with
  | '-' :: rest => (core rest).map (fun q => -q)
  | cs => core cs

/-! ### scale.rs : the scale builder.
`f64` min/max bookkeeping uses `f64::INFINITY` / `NEG_INFINITY` sentinels, so
scale values live in an extended-rational type `XQ` with IEEE-style
comparison and arithmetic.  A `nan` element totalizes the IEEE partial
operations; no reachable state of the scale builder produces it. -/

/-- Extended rationals: the f64 values the scale builder manipulates. -/
inductive XQ where
  | nan
  | ninf
  | fin (q : ℚ)
  | inf
deriving DecidableEq, Repr

/-- IEEE `<` (false on NaN). -/
def XQ.blt : XQ → XQ → Bool
  | .nan, _ => false
  | _, .nan => false
  | .ninf, .ninf => false
  | .ninf, _ => true
  | _, .ninf => false
  | .inf, _ => false
  | .fin _, .inf => true
  | .fin a, .fin b => decide (a < b)

/-- IEEE `==` (false on NaN, even against itself). -/
def XQ.ieeeEq : XQ → XQ → Bool
  | .ninf, .ninf => true
  | .inf, .inf => true
  | .fin a, .fin b => decide (a = b)
  | _, _ => false

/-- IEEE negation. -/
def XQ.neg : XQ → XQ
  | .nan => .nan
  | .ninf => .inf
  | .inf => .ninf
  | .fin q => .fin (-q)

/-- IEEE addition. -/
def XQ.add : XQ → XQ → XQ
  | .nan, _ => .nan
  | _, .nan => .nan
  | .inf, .ninf => .nan
  | .ninf, .inf => .nan
  | .inf, _ => .inf
  | _, .inf => .inf
  | .ninf, _ => .ninf
  | _, .ninf => .ninf
  | .fin a, .fin b => .fin (a + b)

/-- IEEE subtraction. -/
def XQ.sub (a b : XQ) : XQ := a.add b.neg

/-- IEEE multiplication by a finite constant (the code only multiplies by the
positive literal `0.05`). -/
def XQ.mulQ : XQ → ℚ → XQ
  | .nan, _ => .nan
  | .inf, c => if 0 < c then .inf else if c < 0 then .ninf else .nan
  | .ninf, c => if 0 < c then .ninf else if c < 0 then .inf else .nan
  | .fin a, c => .fin (a * c)

/-- `MinMax`: one axis's raw range for one panel. -/
structure MinMax where
  min : XQ
  max : XQ
  is_categorical : Bool
  categories : List String
deriving DecidableEq, Repr

/-- `MinMax::default()` (f64 default is `0.0`). -/
def MinMax.dflt : MinMax :=
  { min := .fin 0, max := .fin 0, is_categorical := false, categories := [] }

/-- The `if val < min { min = val } if val > max { max = val }` scan. -/
def foldMinMax (vals : List ℚ) (mn mx : XQ) : XQ × XQ :=
  vals.foldl (fun p v =>
    (if XQ.blt (.fin v) p.1 then .fin v else p.1,
     if XQ.blt p.2 (.fin v) then .fin v else p.2)) (mn, mx)

/-- `calculate_min_max_x`: scan every group's x values; a categorical group
forces categorical, taking the first non-empty category list; categorical
ranges are overridden to `[0, max(N,1)−1]`. -/
def calculate_min_max_x (panel : PanelData) : MinMax :=
  let step := fun (acc : XQ × XQ × Bool × List String) (g : GroupData) =>
    let cs :=
      match g.x_categories with
      | some cs => (true, if acc.2.2.2.isEmpty then cs else acc.2.2.2)
      | none => (acc.2.2.1, acc.2.2.2)
    let mm := foldMinMax g.x acc.1 acc.2.1
    (mm.1, mm.2, cs.1, cs.2)
  let r := panel.layers.foldl (fun a l => l.groups.foldl step a)
    (XQ.inf, XQ.ninf, false, ([] : List String))
  if r.2.2.1 then
    { min := .fin 0, max := .fin (((r.2.2.2.length.max 1) - 1 : ℕ) : ℚ),
      is_categorical := true, categories := r.2.2.2 }
  else
    { min := r.1, max := r.2.1, is_categorical := false, categories := r.2.2.2 }

/-- `calculate_min_max_y`: scan y and y_start of every group; any bar-styled
group forces the range to include 0. -/
def calculate_min_max_y (panel : PanelData) : MinMax :=
  let step := fun (acc : XQ × XQ × Bool) (g : GroupData) =>
    let hb := acc.2.2 || (match g.style with | .bar _ => true | _ => false)
    let mm := foldMinMax g.y acc.1 acc.2.1
    let mm := foldMinMax g.y_start mm.1 mm.2
    (mm.1, mm.2, hb)
  let r := panel.layers.foldl (fun a l => l.groups.foldl step a)
    (XQ.inf, XQ.ninf, false)
  let mn := if r.2.2 && XQ.blt (.fin 0) r.1 then .fin 0 else r.1
  let mx := if r.2.2 && XQ.blt r.2.1 (.fin 0) then .fin 0 else r.2.1
  { min := mn, max := mx, is_categorical := false, categories := [] }

/-- The loop body of `merge_ranges`: keep the smaller min, the larger max,
any categorical flag, the first non-empty category list. -/
def merge_step (g l : MinMax) : MinMax :=
  { min := if XQ.blt l.min g.min then l.min else g.min,
    max := if XQ.blt g.max l.max then l.max else g.max,
    is_categorical := g.is_categorical || l.is_categorical,
    categories :=
      if l.is_categorical && g.categories.isEmpty then l.categories
      else g.categories }

/-- The starting accumulator of `merge_ranges`. -/
def merge_init : MinMax :=
  { min := .inf, max := .ninf, is_categorical := false, categories := [] }

/-- `merge_ranges`: min of mins, max of maxes, first non-empty category list;
an all-empty merge falls back to `[0, 1]`. -/
def merge_ranges (rs : List MinMax) : MinMax :=
  let g := rs.foldl merge_step merge_init
  if XQ.ieeeEq g.min .inf then { g with min := .fin 0, max := .fin 1 } else g

/-- `pad_range`: `[min−1, max+1]` for a degenerate range, otherwise ±5% of
the span. -/
def pad_range (mn mx : XQ) : XQ × XQ :=
  if XQ.ieeeEq mn mx then
    (mn.sub (.fin 1), mx.add (.fin 1))
  else
    let padding := (mx.sub mn).mulQ (1 / 20)
    (mn.sub padding, mx.add padding)

/-- `Scale` (ir.rs). -/
structure Scale where
  domain : XQ × XQ
  range : XQ × XQ
  is_categorical : Bool
  categories : List String
deriving DecidableEq, Repr

/-- `PanelScales` (ir.rs). -/
structure PanelScales where
  x : Scale
  y : Scale
deriving DecidableEq, Repr

/-- `ScaleSystem` (ir.rs). -/
structure ScaleSystem where
  panels : List PanelScales
deriving DecidableEq, Repr

/-- The x `Scale` construction in `build_scales`: categorical scales get
domain `(0, N)` and range `(−0.5, N−0.5)`; continuous ones are padded. -/
def scale_from_x_domain (d : MinMax) : Scale :=
  if d.is_categorical then
    let n : ℚ := (d.categories.length : ℚ)
    { domain := (.fin 0, .fin n), range := (.fin (-(1 / 2)), .fin (n - 1 / 2)),
      is_categorical := true, categories := d.categories }
  else
    let p := pad_range d.min d.max
    { domain := p, range := p, is_categorical := false, categories := [] }

/-- The y `Scale` construction in `build_scales` (always continuous). -/
def scale_from_y_domain (d : MinMax) : Scale :=
  let p := pad_range d.min d.max
  { domain := p, range := p, is_categorical := false, categories := [] }

/-- The effective scale-sharing mode: the facet's, else `Fixed`. -/
def scales_mode (facet : Option ResolvedFacet) : FacetScales :=
  match facet with
  | some f => f.scales
  | none => .fixed

/-- `build_scales`.  The Rust signature returns `Result` but the body has no
fallible step and always ends in `Ok`, so the model is total. -/
def build_scales (data : RenderData) (facet : Option ResolvedFacet) : ScaleSystem :=
  let ranges := data.panels.map (fun p => (calculate_min_max_x p, calculate_min_max_y p))
  let mode := scales_mode facet
  let global_x :=
    if mode == .fixed || mode == .freeY then merge_ranges (ranges.map (·.1))
    else MinMax.dflt
  let global_y :=
    if mode == .fixed || mode == .freeX then merge_ranges (ranges.map (·.2))
    else MinMax.dflt
  { panels := ranges.map (fun r =>
      let x_domain := if mode == .fixed || mode == .freeY then global_x else r.1
      let y_domain := if mode == .fixed || mode == .freeX then global_y else r.2
      { x := scale_from_x_domain x_domain, y := scale_from_y_domain y_domain }) }

/-! ### compiler.rs : the geometry compiler -/

/-- `DrawCommand` (ir.rs). -/
inductive DrawCommand where
  | drawLine (points : List (ℚ × ℚ)) (style : LineStyle) (legend : Option String)
  | drawPoint (points : List (ℚ × ℚ)) (style : PointStyle) (legend : Option String)
  | drawRect (tl br : ℚ × ℚ) (style : BarStyle) (legend : Option String)
deriving DecidableEq, Repr

/-- `PanelScene` (ir.rs). -/
structure PanelScene where
  row : Nat
  col : Nat
  title : Option String
  x_scale : Scale
  y_scale : Scale
  commands : List DrawCommand
deriving DecidableEq, Repr

/-- `SceneGraph` (ir.rs). -/
structure SceneGraph where
  width : Nat
  height : Nat
  panels : List PanelScene
  title : Option String
deriving DecidableEq, Repr

/-- The `(is_bar, position)` extraction in `compile_geometry`: non-bar layers
behave as `Identity`. -/
def layer_position : Layer → BarPosition
  | .bar b => b.position
  | _ => .identity

/-- The per-group command emission in `compile_geometry`: a polyline or point
cloud with the group key as legend, or one rectangle per bar with the legend
only on the first.  (Rust reads `y[i]`/`y_start[i]` for `i < x.len()`, a
panic when the arrays are shorter; `getD _ 0` is the total counterpart.) -/
def compile_group (position : BarPosition) (num_groups : Nat) (group_idx : Nat)
    (g : GroupData) : List DrawCommand :=
  match g.style with
  | .line s => [.drawLine (g.x.zip g.y) s (some g.key)]
  | .point s => [.drawPoint (g.x.zip g.y) s (some g.key)]
  | .bar s =>
    let bar_width := s.width.getD (4 / 5)
    let slotOff : ℚ × ℚ :=
      if position == .dodge then
        let slot := bar_width / (num_groups : ℚ)
        (slot, ((group_idx : ℚ) - ((num_groups : ℚ) - 1) / 2) * slot)
      else (bar_width, 0)
    (List.range g.x.length).map (fun i =>
      let x_final := g.x.getD i 0 + slotOff.2
      let half_width := slotOff.1 / 2
      .drawRect (x_final - half_width, g.y.getD i 0)
        (x_final + half_width, g.y_start.getD i 0) s
        (if i == 0 then some g.key else none))

instance : Inhabited ResolvedLayer :=
  ⟨⟨.line ⟨none, none, none, none, none⟩, ⟨"", "", none, none, none, none⟩⟩⟩

/-- The per-layer loop body of `compile_geometry`: commands follow group
order, then point order.  (`spec.layers[layer_idx]` panics in Rust when the
documented 1:1 layer alignment is violated; `getD` with a default layer is
the total counterpart.) -/
def compile_layer (layer_spec : ResolvedLayer) (layer_data : LayerData) :
    List DrawCommand :=
  let position := layer_position layer_spec.original_layer
  let num_groups := layer_data.groups.length
  layer_data.groups.enum.foldl
    (fun acc p => acc ++ compile_group position num_groups p.1 p.2) []

/-- `compile_geometry`.  (The Rust `Result` is always `Ok`; the facet-column
`unwrap` in the title format and the `/ ncol` grid arithmetic are totalized
with defaults, comments mark them.) -/
def compile_geometry (data : RenderData) (scales : ScaleSystem)
    (spec : ResolvedSpec) : SceneGraph :=
  let panels := (data.panels.zip scales.panels).map (fun pz =>
    let panel_data := pz.1
    let commands := (panel_data.layers.enum).foldl
      (fun acc lp => acc ++ compile_layer (spec.layers.getD lp.1 default) lp.2) []
    let title :=
      ((data.facet_layout.panel_titles.get? panel_data.index).filter
        (fun s => !s.isEmpty)).map
        (fun s => ((spec.facet.map (·.col)).getD "") ++ " = " ++ s)
    { row := panel_data.index / data.facet_layout.ncol,
      col := panel_data.index % data.facet_layout.ncol,
      title := title,
      x_scale := pz.2.x,
      y_scale := pz.2.y,
      commands := commands })
  { width := 800, height := 600, panels := panels,
    title := spec.facet.map (fun _ => "") }

/-! ## Supporting lemmas -/

/-- `col_position` returns an in-range index of the first case-insensitive
match. -/
theorem col_position_some_spec (headers : List String) (name : String) :
    ∀ i, col_position headers name = some i →
      i < headers.length ∧ eq_ignore_ascii_case (headers.getD i "") name = true ∧
        ∀ j, j < i → eq_ignore_ascii_case (headers.getD j "") name = false := by
  induction headers with
  | nil => intro i h; simp [col_position] at h
  | cons hd tl ih =>
    intro i h
    by_cases hc : eq_ignore_ascii_case hd name
    · simp [col_position, hc] at h
      subst h
      exact ⟨Nat.succ_pos _, by simpa using hc, fun j hj => absurd hj (Nat.not_lt_zero j)⟩
    · simp [col_position, hc] at h
      obtain ⟨i', hi', rfl⟩ := h
      obtain ⟨h1, h2, h3⟩ := ih i' hi'
      refine ⟨by simpa using h1, by simpa using h2, ?_⟩
      intro j hj
      cases j with
      | zero => simpa using Bool.eq_false_iff.mpr hc
      | succ j' => simpa using h3 j' (Nat.lt_of_succ_lt_succ hj)

/-- `col_position` returns `none` exactly when no header matches. -/
theorem col_position_none_iff (headers : List String) (name : String) :
    col_position headers name = none ↔
      ∀ h ∈ headers, eq_ignore_ascii_case h name = false := by
  induction headers with
  | nil => simp [col_position]
  | cons hd tl ih =>
    by_cases hc : eq_ignore_ascii_case hd name
    · simp [col_position, hc]
    · rw [col_position, if_neg hc]
      simp only [Option.map_eq_none']
      rw [ih]
      constructor
      · intro h x hx
        rcases List.mem_cons.mp hx with rfl | hx2
        · exact Bool.eq_false_iff.mpr hc
        · exact h x hx2
      · intro h x hx
        exact h x (List.mem_cons_of_mem _ hx)

/-- The layer-level color value (the color match arms of
`resolve_layer_aesthetics`). -/
def layer_color_value : Layer → Option (AestheticValue String)
  | .line l => l.color
  | .point p => p.color
  | .bar b => b.color

/-- The layer-level size/width value (the size match arms). -/
def layer_size_value : Layer → Option (AestheticValue ℚ)
  | .line l => l.width
  | .point p => p.size
  | .bar b => b.width

/-- The layer-level alpha value (the alpha match arms). -/
def layer_alpha_value : Layer → Option (AestheticValue ℚ)
  | .line l => l.alpha
  | .point p => p.alpha
  | .bar b => b.alpha

/-- The layer-level shape value (the shape match arms: point layers only). -/
def layer_shape_value : Layer → Option (AestheticValue String)
  | .point p => p.shape
  | _ => none

/-- Point-layer discriminator. -/
def isPointLayer : Layer → Bool
  | .point _ => true
  | _ => false

/-- Inversion of a successful `resolve_layer_aesthetics`: each channel is the
layer's mapped value, with the global mapping as fallback. -/
theorem resolve_layer_aesthetics_ok (layer : Layer) (global_aes : Option Aesthetics)
    (ra : ResolvedAesthetics)
    (hok : resolve_layer_aesthetics layer global_aes = .ok ra) :
    ra.color = (extract_mapped_string (layer_color_value layer)).orElse
        (fun _ => global_aes.bind (·.color)) ∧
    ra.size = (extract_mapped_string_from_f64 (layer_size_value layer)).orElse
        (fun _ => global_aes.bind (·.size)) ∧
    ra.shape = (extract_mapped_string (layer_shape_value layer)).orElse
        (fun _ => global_aes.bind (·.shape)) ∧
    ra.alpha = (extract_mapped_string_from_f64 (layer_alpha_value layer)).orElse
        (fun _ => global_aes.bind (·.alpha)) := by
  unfold resolve_layer_aesthetics at hok
  cases hp : resolve_positional layer global_aes with
  | error e =>
    rw [hp] at hok
    simp [Except.bind] at hok
  | ok p =>
    obtain ⟨px, py⟩ := p
    rw [hp] at hok
    simp only [Bind.bind, Except.bind, pure, Except.pure, Except.ok.injEq] at hok
    subst hok
    cases layer <;>
      simp [layer_color_value, layer_size_value, layer_shape_value,
        layer_alpha_value, extract_mapped_string]

/-! ## Claims -/

/-- C10: every column lookup against the table header — `find_col_index` for
the x/y/grouping columns and the facet lookup in `partition_data` — matches
header names ASCII case-insensitively, taking the first header equal up to
ASCII case, and raises ColumnNotFound only when no header matches. -/
theorem c10_column_lookup_case_insensitive
    (headers : List String) (name : String) (spec : ResolvedSpec)
    (csv : CsvData) (f : ResolvedFacet) :
    (∀ i, col_position headers name = some i →
      i < headers.length ∧ eq_ignore_ascii_case (headers.getD i "") name = true ∧
        ∀ j, j < i → eq_ignore_ascii_case (headers.getD j "") name = false) ∧
    (col_position headers name = none ↔
      ∀ h ∈ headers, eq_ignore_ascii_case h name = false) ∧
    (∀ i, find_col_index headers name = .ok i ↔ col_position headers name = some i) ∧
    ((∃ e, find_col_index headers name = .error e) ↔
      ∀ h ∈ headers, eq_ignore_ascii_case h name = false) ∧
    (spec.facet = some f →
      ((∃ e, partition_data spec csv = .error e) ↔
        ∀ h ∈ csv.headers, eq_ignore_ascii_case h f.col = false)) := by
  refine ⟨col_position_some_spec headers name, col_position_none_iff headers name,
    ?_, ?_, ?_⟩
  · intro i
    unfold find_col_index
    cases h : col_position headers name <;> simp [h]
  · rw [← col_position_none_iff]
    unfold find_col_index
    cases h : col_position headers name <;> simp [h]
  · intro hf
    rw [← col_position_none_iff]
    unfold partition_data
    rw [hf]
    cases h : col_position csv.headers f.col <;> simp [h]

/-- Witness for C10 at a concrete header list: `"bar"` finds the header
`"BAR"` at index 1, and index 0 does not match. -/
theorem c10_witness :
    1 < (["foo", "BAR"] : List String).length ∧
      eq_ignore_ascii_case ((["foo", "BAR"] : List String).getD 1 "") "bar" = true ∧
      ∀ j, j < 1 →
        eq_ignore_ascii_case ((["foo", "BAR"] : List String).getD j "") "bar" = false :=
  (c10_column_lookup_case_insensitive ["foo", "BAR"] "bar"
    ⟨[], none⟩ ⟨[], []⟩ ⟨"", none, .fixed⟩).1 1 (by decide)

/-- C5: for a continuous axis with raw minimum `m` and maximum `M`,
`pad_range` produces exactly `[m − 0.05(M−m), M + 0.05(M−m)]` when `m ≠ M`
and exactly `[m−1, m+1]` when `m = M` (0.05 written `1/20`). -/
theorem c5_pad_range_exact (m M : ℚ) :
    (m ≠ M →
      pad_range (.fin m) (.fin M) =
        (.fin (m - (M - m) * (1 / 20)), .fin (M + (M - m) * (1 / 20)))) ∧
    (m = M → pad_range (.fin m) (.fin M) = (.fin (m - 1), .fin (m + 1))) := by
  constructor
  · intro h
    simp only [pad_range, XQ.ieeeEq, XQ.sub, XQ.add, XQ.neg, XQ.mulQ, h,
      decide_eq_true_eq, if_false, Prod.mk.injEq]
    constructor <;> · congr 1; ring
  · intro h
    subst h
    simp only [pad_range, XQ.ieeeEq, XQ.sub, XQ.add, XQ.neg, decide_eq_true_eq,
      if_true, Prod.mk.injEq]
    constructor <;> · congr 1; ring

/-- Witness for C5 at `m = 0, M = 1` and at the degenerate `m = M = 5`. -/
theorem c5_witness :
    pad_range (.fin 0) (.fin 1) =
      (.fin ((0 : ℚ) - (1 - 0) * (1 / 20)), .fin ((1 : ℚ) + (1 - 0) * (1 / 20))) ∧
    pad_range (.fin 5) (.fin 5) = (.fin ((5 : ℚ) - 1), .fin ((5 : ℚ) + 1)) :=
  ⟨(c5_pad_range_exact 0 1).1 (by norm_num), (c5_pad_range_exact 5 5).2 rfl⟩

/-- C8: when partitioning by the facet column yields zero partitions (here: a
facet by `"g"`, the third column, over a single row too short to have that
cell), `apply_transformations` does NOT fail — it returns `Ok` with zero
panels, contradicting the spec's fatal *EmptyFacetPartition* error. -/
theorem c8_zero_partitions_return_ok :
    apply_transformations parseQ
      { layers := [{ original_layer := .line ⟨none, none, none, none, none⟩,
                     aesthetics := ⟨"x", "y", none, none, none, none⟩ }],
        facet := some ⟨"g", none, .fixed⟩ }
      { headers := ["x", "y", "g"], rows := [["1", "2"]] } =
    .ok { panels := [],
          facet_layout := { nrow := 0, ncol := 0, panel_titles := [] } } := by
  rfl

/-- Concrete resolver input for C2: a line layer with a *fixed* color and a
global aesthetic block that maps color to column `"c"`. -/
def c2Layer : Layer :=
  .line { x := some "x", y := some "y", color := some (.fixed "red"),
          width := none, alpha := none }

/-- Concrete global aesthetics for C2. -/
def c2Global : Option Aesthetics :=
  some { x := "x", y := "y", color := some "c", size := none,
         shape := none, alpha := none }

/-- The resolver's output on the C2 input. -/
def c2Resolved : ResolvedAesthetics :=
  { x_col := "x", y_col := "y", color := some "c", size := none,
    shape := none, alpha := none }

/-- C2 counterexample: the claim says a layer-level *fixed* color leaves the
channel with no resolved column even when the global block maps it; but on
`c2Layer` (fixed color, global maps color to `"c"`) the resolver resolves
color to the global column `"c"`. -/
theorem c2_counterexample :
    (resolve_layer_aesthetics c2Layer c2Global).map (·.color) = .ok (some "c") ∧
      some "c" ≠ (none : Option String) :=
  ⟨rfl, by simp⟩

/-- C2 (amended): for color, size and alpha, a layer's *mapped* value wins and
a *fixed* literal never itself yields a resolved column
(`extract_mapped_string` ignores it) — but a fixed value does not block the
global fallback: the global mapping is used whenever the layer has no mapped
value for the channel, even when the layer has a fixed one. -/
theorem c2_fixed_never_maps_but_global_falls_through (layer : Layer)
    (global_aes : Option Aesthetics) (ra : ResolvedAesthetics)
    (hok : resolve_layer_aesthetics layer global_aes = .ok ra) :
    (∀ v : String, extract_mapped_string (some (.fixed v)) = none) ∧
    (∀ v : ℚ, extract_mapped_string_from_f64 (some (.fixed v)) = none) ∧
    ra.color = (extract_mapped_string (layer_color_value layer)).orElse
        (fun _ => global_aes.bind (·.color)) ∧
    ra.size = (extract_mapped_string_from_f64 (layer_size_value layer)).orElse
        (fun _ => global_aes.bind (·.size)) ∧
    ra.alpha = (extract_mapped_string_from_f64 (layer_alpha_value layer)).orElse
        (fun _ => global_aes.bind (·.alpha)) := by
  obtain ⟨hc, hs, _, ha⟩ := resolve_layer_aesthetics_ok layer global_aes ra hok
  exact ⟨fun v => rfl, fun v => rfl, hc, hs, ha⟩

/-- Witness for C2 (amended) on the concrete C2 input: resolved color is the
global mapping's column. -/
theorem c2_witness :
    c2Resolved.color = (extract_mapped_string (layer_color_value c2Layer)).orElse
      (fun _ => c2Global.bind (·.color)) :=
  (c2_fixed_never_maps_but_global_falls_through c2Layer c2Global c2Resolved
    (by rfl)).2.2.1

/-- Concrete resolver input for C9: a line layer (no shape property) under a
global aesthetic block that maps shape to column `"s"`. -/
def c9Layer : Layer :=
  .line { x := some "x", y := some "y", color := none, width := none,
          alpha := none }

/-- Concrete global aesthetics for C9. -/
def c9Global : Option Aesthetics :=
  some { x := "x", y := "y", color := none, size := none,
         shape := some "s", alpha := none }

/-- The resolver's output on the C9 input. -/
def c9Resolved : ResolvedAesthetics :=
  { x_col := "x", y_col := "y", color := none, size := none,
    shape := some "s", alpha := none }

/-- C9 counterexample: the claim says non-point layers get no resolved shape
column regardless of the global block; but a line layer under a global shape
mapping to `"s"` resolves shape to `"s"`. -/
theorem c9_counterexample :
    (resolve_layer_aesthetics c9Layer c9Global).map (·.shape) = .ok (some "s") ∧
      some "s" ≠ (none : Option String) :=
  ⟨rfl, by simp⟩

/-- C9 (amended): *layer-level* shape resolution applies only to point layers
— for non-point layers the layer itself contributes no shape column and the
resolved shape is exactly the global mapping's (so it is `none` only when the
global block maps no shape); for point layers the layer's mapped shape wins
over the global fallback. -/
theorem c9_shape_layer_level_point_only (layer : Layer)
    (global_aes : Option Aesthetics) (ra : ResolvedAesthetics)
    (hok : resolve_layer_aesthetics layer global_aes = .ok ra) :
    (isPointLayer layer = false → ra.shape = global_aes.bind (·.shape)) ∧
    (∀ p, layer = .point p →
      ra.shape = (extract_mapped_string p.shape).orElse
        (fun _ => global_aes.bind (·.shape))) := by
  obtain ⟨_, _, hsh, _⟩ := resolve_layer_aesthetics_ok layer global_aes ra hok
  constructor
  · intro hnp
    rw [hsh]
    cases layer with
    | point p => simp [isPointLayer] at hnp
    | line l => simp [layer_shape_value, extract_mapped_string, Option.orElse]
    | bar b => simp [layer_shape_value, extract_mapped_string, Option.orElse]
  · intro p hp
    subst hp
    exact hsh

/-- Witness for C9 (amended) on the concrete C9 input: the line layer's
resolved shape is the global mapping's column `"s"`. -/
theorem c9_witness : c9Resolved.shape = c9Global.bind (·.shape) :=
  (c9_shape_layer_level_point_only c9Layer c9Global c9Resolved (by rfl)).1 (by rfl)

/-- IEEE `<` is irreflexive. -/
theorem XQ.blt_irrefl (x : XQ) : XQ.blt x x = false := by
  cases x <;> simp [XQ.blt]

/-- If `x` is not below `a` and `y` is below `a`, then `x` is not below `y`. -/
theorem XQ.blt_false_left (x y a : XQ) (h1 : XQ.blt x a = false)
    (h2 : XQ.blt y a = true) : XQ.blt x y = false := by
  cases x <;> cases y <;> cases a <;> simp_all [XQ.blt] <;> linarith

/-- If `a` is not below `y` and `a` is below `b`, then `b` is not below `y`. -/
theorem XQ.blt_false_right (a y b : XQ) (h1 : XQ.blt a y = false)
    (h2 : XQ.blt a b = true) : XQ.blt b y = false := by
  cases a <;> cases y <;> cases b <;> simp_all [XQ.blt] <;> linarith

/-- Folding more ranges never raises the running minimum above a bound it
already satisfies. -/
theorem fold_min_mono (rs : List MinMax) (g : MinMax) (x : XQ)
    (hx : XQ.blt x g.min = false) :
    XQ.blt x (rs.foldl merge_step g).min = false := by
  induction rs generalizing g with
  | nil => exact hx
  | cons l rest ih =>
    rw [List.foldl_cons]
    apply ih
    cases hb : XQ.blt l.min g.min with
    | true =>
      have hm : (merge_step g l).min = l.min := by simp [merge_step, hb]
      rw [hm]
      exact XQ.blt_false_left x l.min g.min hx hb
    | false =>
      have hm : (merge_step g l).min = g.min := by simp [merge_step, hb]
      rw [hm]; exact hx

/-- The folded minimum is not above any contributing range's minimum. -/
theorem fold_min_le (rs : List MinMax) (g : MinMax) :
    ∀ r ∈ rs, XQ.blt r.min (rs.foldl merge_step g).min = false := by
  induction rs generalizing g with
  | nil => intro r hr; simp at hr
  | cons l rest ih =>
    intro r hr
    rw [List.foldl_cons]
    rcases List.mem_cons.mp hr with rfl | hr2
    · apply fold_min_mono
      cases hb : XQ.blt r.min g.min with
      | true => simp [merge_step, hb, XQ.blt_irrefl]
      | false => simp [merge_step, hb]
    · exact ih (merge_step g l) r hr2

/-- Folding more ranges never drops the running maximum below a bound it
already satisfies. -/
theorem fold_max_mono (rs : List MinMax) (g : MinMax) (x : XQ)
    (hx : XQ.blt g.max x = false) :
    XQ.blt (rs.foldl merge_step g).max x = false := by
  induction rs generalizing g with
  | nil => exact hx
  | cons l rest ih =>
    rw [List.foldl_cons]
    apply ih
    cases hb : XQ.blt g.max l.max with
    | true =>
      have hm : (merge_step g l).max = l.max := by simp [merge_step, hb]
      rw [hm]
      exact XQ.blt_false_right g.max x l.max hx hb
    | false =>
      have hm : (merge_step g l).max = g.max := by simp [merge_step, hb]
      rw [hm]; exact hx

/-- The folded maximum is not below any contributing range's maximum. -/
theorem fold_max_ge (rs : List MinMax) (g : MinMax) :
    ∀ r ∈ rs, XQ.blt (rs.foldl merge_step g).max r.max = false := by
  induction rs generalizing g with
  | nil => intro r hr; simp at hr
  | cons l rest ih =>
    intro r hr
    rw [List.foldl_cons]
    rcases List.mem_cons.mp hr with rfl | hr2
    · apply fold_max_mono
      cases hb : XQ.blt g.max r.max with
      | true => simp [merge_step, hb, XQ.blt_irrefl]
      | false => simp [merge_step, hb]
    · exact ih (merge_step g l) r hr2

/-- C6: under the Fixed scale-sharing policy (including the unfaceted case),
every panel receives the same x scale and the same y scale, each built from
`merge_ranges` of all panels' raw ranges — the union range: whenever the
merged x (resp. y) range is non-empty (no `[0,1]` fallback), its min is not
above any panel's raw min and its max not below any panel's raw max, and an
empty merge yields exactly the `[0,1]` fallback. -/
theorem c6_fixed_policy_shares_union_domain (data : RenderData)
    (facet : Option ResolvedFacet) (hfix : scales_mode facet = .fixed) :
    (∀ ps ∈ (build_scales data facet).panels,
      ps = { x := scale_from_x_domain
                (merge_ranges (data.panels.map calculate_min_max_x)),
             y := scale_from_y_domain
                (merge_ranges (data.panels.map calculate_min_max_y)) }) ∧
    (∀ rs : List MinMax,
      (XQ.ieeeEq ((rs.foldl merge_step merge_init)).min .inf = false →
        ∀ r ∈ rs, XQ.blt r.min (merge_ranges rs).min = false ∧
          XQ.blt (merge_ranges rs).max r.max = false) ∧
      (XQ.ieeeEq ((rs.foldl merge_step merge_init)).min .inf = true →
        (merge_ranges rs).min = .fin 0 ∧ (merge_ranges rs).max = .fin 1)) := by
  constructor
  · intro ps hps
    unfold build_scales at hps
    rw [hfix] at hps
    simp only [List.map_map, List.mem_map] at hps
    obtain ⟨p, _, hp⟩ := hps
    rw [← hp]
    have hx : ((fun p => (calculate_min_max_x p, calculate_min_max_y p)) ∘ id) =
        (fun p => (calculate_min_max_x p, calculate_min_max_y p)) := rfl
    simp [Function.comp_def]
  · intro rs
    constructor
    · intro hnf r hr
      unfold merge_ranges
      simp only [hnf, Bool.false_eq_true, if_false]
      exact ⟨fold_min_le rs merge_init r hr, fold_max_ge rs merge_init r hr⟩
    · intro hf
      unfold merge_ranges
      simp [hf]

/-- A concrete two-panel render data for the C6 witness: panel 0 holds the
x value 0 / y value 5, panel 1 holds x 10 / y 50. -/
def c6Data : RenderData :=
  ⟨[⟨0, [⟨[⟨"A", [0], [5], [0], none, .line ⟨none, none, none⟩⟩]⟩]⟩,
    ⟨1, [⟨[⟨"A", [10], [50], [0], none, .line ⟨none, none, none⟩⟩]⟩]⟩],
   ⟨1, 2, []⟩⟩

/-- A throwaway default `Scale` for `getD`. -/
def dfltScale : Scale :=
  ⟨(.fin 0, .fin 0), (.fin 0, .fin 0), false, []⟩

/-- `getD` at an in-range index is a member. -/
theorem list_getD_mem {α : Type} (l : List α) (n : Nat) (d : α)
    (h : n < l.length) : l.getD n d ∈ l := by
  induction l generalizing n with
  | nil => simp at h
  | cons a t ih =>
    cases n with
    | zero => simp
    | succ m =>
      simp only [List.getD_cons_succ]
      exact List.mem_cons_of_mem _ (ih m (by simpa using h))

/-- Witness for C6 on `c6Data` under the unfaceted (⇒ Fixed) policy: panel 0's
scales are the union-built ones, and panel 0's raw x min is not below the
merged min. -/
theorem c6_witness :
    ((build_scales c6Data none).panels.getD 0 ⟨dfltScale, dfltScale⟩ =
      { x := scale_from_x_domain
          (merge_ranges (c6Data.panels.map calculate_min_max_x)),
        y := scale_from_y_domain
          (merge_ranges (c6Data.panels.map calculate_min_max_y)) }) ∧
    XQ.blt (calculate_min_max_x (c6Data.panels.getD 0 ⟨0, []⟩)).min
      (merge_ranges (c6Data.panels.map calculate_min_max_x)).min = false := by
  constructor
  · exact (c6_fixed_policy_shares_union_domain c6Data none rfl).1 _
      (list_getD_mem _ 0 _ (by decide))
  · exact (((c6_fixed_policy_shares_union_domain c6Data none rfl).2
      (c6Data.panels.map calculate_min_max_x)).1 (by decide)
      (calculate_min_max_x (c6Data.panels.getD 0 ⟨0, []⟩)) (by decide)).1

/-- Folding only empty raw ranges leaves the accumulator untouched. -/
theorem fold_all_empty (rs : List MinMax)
    (h : ∀ r ∈ rs, r = ⟨.inf, .ninf, false, []⟩) :
    rs.foldl merge_step merge_init = merge_init := by
  induction rs with
  | nil => rfl
  | cons l rest ih =>
    have hl := h l (List.mem_cons_self _ _)
    rw [List.foldl_cons]
    have hstep : merge_step merge_init l = merge_init := by subst hl; rfl
    rw [hstep]
    exact ih (fun r hr => h r (List.mem_cons_of_mem _ hr))

/-- Merging only empty raw ranges triggers the `[0,1]` fallback. -/
theorem merge_ranges_all_empty (rs : List MinMax)
    (h : ∀ r ∈ rs, r = ⟨.inf, .ninf, false, []⟩) :
    merge_ranges rs = ⟨.fin 0, .fin 1, false, []⟩ := by
  unfold merge_ranges
  rw [fold_all_empty rs h]
  rfl

/-- Padding the empty sentinel range keeps the IEEE infinities. -/
theorem pad_range_empty : pad_range .inf .ninf = (.inf, .ninf) := by
  have h : (0 : ℚ) < 1 / 20 := by norm_num
  simp [pad_range, XQ.ieeeEq, XQ.sub, XQ.add, XQ.neg, XQ.mulQ, h]

/-- C7 counterexample: under the Free policy, an empty panel's x domain is
NOT the `[0,1]` fallback (raw or padded) — `build_scales` keeps the IEEE
infinity sentinels for per-panel axes with no data. -/
theorem c7_counterexample :
    ((build_scales ⟨[⟨0, []⟩], ⟨1, 1, []⟩⟩ (some ⟨"f", none, .free⟩)).panels.map
        (fun ps => ps.x.domain)) = [(XQ.inf, XQ.ninf)] ∧
    ((XQ.inf, XQ.ninf) ≠ ((XQ.fin 0), (XQ.fin 1))) ∧
    ((XQ.inf, XQ.ninf) ≠ pad_range (.fin 0) (.fin 1)) := by
  refine ⟨?_, by simp, ?_⟩
  · have hbs : build_scales ⟨[⟨0, []⟩], ⟨1, 1, []⟩⟩ (some ⟨"f", none, .free⟩) =
        { panels := [{ x := scale_from_x_domain ⟨.inf, .ninf, false, []⟩,
                       y := scale_from_y_domain ⟨.inf, .ninf, false, []⟩ }] } := rfl
    rw [hbs]
    simp [scale_from_x_domain, pad_range_empty]
  · simp [pad_range, XQ.ieeeEq, XQ.sub, XQ.add, XQ.neg, XQ.mulQ, Prod.ext_iff]

/-- C7 (amended): `build_scales` is total and returns one `PanelScales` per
panel of the render data; the `[0,1]` fallback (padded to `[−1/20, 21/20]`)
applies to an axis exactly when that axis's domain is merged across panels —
the x axis under Fixed or FreeY, the y axis under Fixed or FreeX — and no
panel contributes data for it, while a per-panel free axis — x under FreeX
or Free, y under FreeY or Free — of a panel with no data keeps the infinite
sentinel bounds instead of falling back to `[0,1]`. -/
theorem c7_build_scales_total_with_fallback (data : RenderData)
    (facet : Option ResolvedFacet) :
    ((build_scales data facet).panels.length = data.panels.length) ∧
    ((scales_mode facet = .fixed ∨ scales_mode facet = .freeY) →
      (∀ p ∈ data.panels, calculate_min_max_x p = ⟨.inf, .ninf, false, []⟩) →
      ∀ ps ∈ (build_scales data facet).panels,
        ps.x.domain = (.fin (-(1 / 20)), .fin (21 / 20))) ∧
    ((scales_mode facet = .fixed ∨ scales_mode facet = .freeX) →
      (∀ p ∈ data.panels, calculate_min_max_y p = ⟨.inf, .ninf, false, []⟩) →
      ∀ ps ∈ (build_scales data facet).panels,
        ps.y.domain = (.fin (-(1 / 20)), .fin (21 / 20))) ∧
    ((scales_mode facet = .freeX ∨ scales_mode facet = .free) →
      ∀ i p, data.panels.get? i = some p →
        calculate_min_max_x p = ⟨.inf, .ninf, false, []⟩ →
        ∃ ps, (build_scales data facet).panels.get? i = some ps ∧
          ps.x.domain = (XQ.inf, XQ.ninf)) ∧
    ((scales_mode facet = .freeY ∨ scales_mode facet = .free) →
      ∀ i p, data.panels.get? i = some p →
        calculate_min_max_y p = ⟨.inf, .ninf, false, []⟩ →
        ∃ ps, (build_scales data facet).panels.get? i = some ps ∧
          ps.y.domain = (XQ.inf, XQ.ninf)) := by
  refine ⟨by simp [build_scales], ?_, ?_, ?_, ?_⟩
  · intro hm hempty ps hps
    rcases hm with hmode | hmode <;>
      (unfold build_scales at hps
       rw [hmode] at hps
       simp only [List.map_map, List.mem_map] at hps
       obtain ⟨p, _, hp⟩ := hps
       rw [← hp]
       have hmr : merge_ranges (List.map ((fun p => (calculate_min_max_x p,
           calculate_min_max_y p)) ∘ id) data.panels |>.map (·.1)) =
           ⟨.fin 0, .fin 1, false, []⟩ := by
         apply merge_ranges_all_empty
         intro r hr
         simp only [List.map_map, List.mem_map] at hr
         obtain ⟨q, hq, hr2⟩ := hr
         rw [← hr2]
         exact hempty q hq
       simp only [Function.comp_def, id, List.map_map] at hmr ⊢
       rw [hmr]
       simp [scale_from_x_domain, pad_range, XQ.ieeeEq, XQ.sub, XQ.add,
         XQ.neg, XQ.mulQ]
       norm_num)
  · intro hm hempty ps hps
    rcases hm with hmode | hmode <;>
      (unfold build_scales at hps
       rw [hmode] at hps
       simp only [List.map_map, List.mem_map] at hps
       obtain ⟨p, _, hp⟩ := hps
       rw [← hp]
       have hmr : merge_ranges (List.map ((fun p => (calculate_min_max_x p,
           calculate_min_max_y p)) ∘ id) data.panels |>.map (·.2)) =
           ⟨.fin 0, .fin 1, false, []⟩ := by
         apply merge_ranges_all_empty
         intro r hr
         simp only [List.map_map, List.mem_map] at hr
         obtain ⟨q, hq, hr2⟩ := hr
         rw [← hr2]
         exact hempty q hq
       simp only [Function.comp_def, id, List.map_map] at hmr ⊢
       rw [hmr]
       simp [scale_from_y_domain, pad_range, XQ.ieeeEq, XQ.sub, XQ.add,
         XQ.neg, XQ.mulQ]
       norm_num)
  · intro hm i p hip hempty
    rcases hm with hmode | hmode <;>
      (unfold build_scales
       rw [hmode]
       simp only [List.map_map, List.get?_map, hip, Option.map_some']
       refine ⟨_, rfl, ?_⟩
       simp [Function.comp_def, hempty, scale_from_x_domain, pad_range_empty])
  · intro hm i p hip hempty
    rcases hm with hmode | hmode <;>
      (unfold build_scales
       rw [hmode]
       simp only [List.map_map, List.get?_map, hip, Option.map_some']
       refine ⟨_, rfl, ?_⟩
       simp [Function.comp_def, hempty, scale_from_y_domain, pad_range_empty])

/-- Witness for C7: under the unfaceted (Fixed) policy a single empty panel
gets one panel of scales with the padded `[0,1]` fallback x domain, and under
the Free policy the same empty panel's x domain keeps the IEEE infinity
sentinels. -/
theorem c7_witness :
    ((build_scales ⟨[⟨0, []⟩], ⟨1, 1, []⟩⟩ none).panels.length = 1) ∧
    ((build_scales ⟨[⟨0, []⟩], ⟨1, 1, []⟩⟩ none).panels.getD 0
        ⟨dfltScale, dfltScale⟩).x.domain = (.fin (-(1 / 20)), .fin (21 / 20)) ∧
    (((build_scales ⟨[⟨0, []⟩], ⟨1, 1, []⟩⟩
          (some ⟨"f", none, .free⟩)).panels.get? 0).map
        (fun ps => ps.x.domain) = some (XQ.inf, XQ.ninf)) := by
  refine ⟨?_, ?_, ?_⟩
  · have h := (c7_build_scales_total_with_fallback ⟨[⟨0, []⟩], ⟨1, 1, []⟩⟩ none).1
    simpa using h
  · exact (c7_build_scales_total_with_fallback ⟨[⟨0, []⟩], ⟨1, 1, []⟩⟩ none).2.1
      (Or.inl rfl) (by decide) _ (list_getD_mem _ 0 _ (by decide))
  · obtain ⟨ps, h1, h2⟩ := (c7_build_scales_total_with_fallback
        ⟨[⟨0, []⟩], ⟨1, 1, []⟩⟩ (some ⟨"f", none, .free⟩)).2.2.2.1
        (Or.inr rfl) 0 ⟨0, []⟩ rfl (by decide)
    rw [h1, Option.map_some', h2]

/-- Gauss-style sum: `∑ i < N, (i − c) = N(N−1)/2 − N·c` over ℚ. -/
theorem sum_range_centered (N : ℕ) (c : ℚ) :
    ((List.range N).map (fun i : ℕ => ((i : ℚ) - c))).sum =
      (N : ℚ) * ((N : ℚ) - 1) / 2 - (N : ℚ) * c := by
  induction N with
  | zero => simp
  | succ n ih =>
    rw [List.range_succ, List.map_append, List.sum_append, ih]
    push_cast
    simp only [List.map_cons, List.map_nil, List.sum_cons, List.sum_nil]
    ring

/-- Pull a constant factor out of a mapped sum. -/
theorem sum_map_mul_const {α : Type} (l : List α) (f : α → ℚ) (c : ℚ) :
    (l.map (fun a => f a * c)).sum = (l.map f).sum * c := by
  induction l with
  | nil => simp
  | cons a t ih => simp [ih, add_mul]

/-- The group's bar style (total projection; claims apply it only to
bar-styled groups). -/
def bar_style_of : RenderStyle → BarStyle
  | .bar s => s
  | _ => ⟨none, none, none⟩

/-- A left fold that appends per-element command lists is `List.bind`. -/
theorem foldl_append_eq_bind {α β : Type} (l : List α) (f : α → List β) :
    l.foldl (fun acc p => acc ++ f p) [] = l.flatMap f := by
  suffices h : ∀ acc, l.foldl (fun acc p => acc ++ f p) acc = acc ++ l.flatMap f by
    simpa using h []
  induction l with
  | nil => intro acc; simp
  | cons a t ih => intro acc; simp [ih, List.append_assoc]

/-- `compile_layer` emits its groups' commands in group order. -/
theorem compile_layer_eq_bind (ls : ResolvedLayer) (ld : LayerData) :
    compile_layer ls ld = ld.groups.enum.flatMap
      (fun p => compile_group (layer_position ls.original_layer)
        ld.groups.length p.1 p.2) := by
  unfold compile_layer
  exact foldl_append_eq_bind _ _

/-- `compile_group` on a bar-styled group under Dodge: slot `w/N`, offset
`(i − (N−1)/2)·slot`, one rectangle per point. -/
theorem compile_group_bar_dodge (N i : ℕ) (g : GroupData) (s : BarStyle)
    (hs : g.style = .bar s) :
    compile_group .dodge N i g =
      (List.range g.x.length).map (fun j =>
        DrawCommand.drawRect
          (g.x.getD j 0 + ((i : ℚ) - ((N : ℚ) - 1) / 2) * (s.width.getD (4 / 5) / (N : ℚ))
             - s.width.getD (4 / 5) / (N : ℚ) / 2,
           g.y.getD j 0)
          (g.x.getD j 0 + ((i : ℚ) - ((N : ℚ) - 1) / 2) * (s.width.getD (4 / 5) / (N : ℚ))
             + s.width.getD (4 / 5) / (N : ℚ) / 2,
           g.y_start.getD j 0)
          s (if j == 0 then some g.key else none)) := by
  unfold compile_group
  rw [hs]
  rfl

/-- `compile_group` on a bar-styled group under Identity or Stack: slot is
the full width ratio, offset 0. -/
theorem compile_group_bar_nondodge (pos : BarPosition) (hpos : pos ≠ .dodge)
    (N i : ℕ) (g : GroupData) (s : BarStyle) (hs : g.style = .bar s) :
    compile_group pos N i g =
      (List.range g.x.length).map (fun j =>
        DrawCommand.drawRect
          (g.x.getD j 0 - s.width.getD (4 / 5) / 2, g.y.getD j 0)
          (g.x.getD j 0 + s.width.getD (4 / 5) / 2, g.y_start.getD j 0)
          s (if j == 0 then some g.key else none)) := by
  unfold compile_group
  rw [hs]
  have hb : (pos == BarPosition.dodge) = false := by
    cases pos <;> simp_all
  simp only [hb, Bool.false_eq_true, if_false]
  apply List.map_congr_left
  intro j _
  congr 1 <;> · simp only [Prod.mk.injEq]; constructor <;> ring_nf

/-- `flatMap` respects pointwise equality on members. -/
theorem flatMap_congr {α β : Type} (l : List α) (f g : α → List β)
    (h : ∀ a ∈ l, f a = g a) : l.flatMap f = l.flatMap g := by
  induction l with
  | nil => rfl
  | cons a t ih =>
    simp only [List.flatMap_cons]
    rw [h a (List.mem_cons_self _ _),
      ih (fun x hx => h x (List.mem_cons_of_mem _ hx))]

/-- The payload of an enumerated member is a member. -/
theorem snd_mem_of_mem_enum {α : Type} {l : List α} {p : ℕ × α}
    (h : p ∈ l.enum) : p.2 ∈ l := by
  rw [List.enum_eq_zip_range] at h
  obtain ⟨q, r⟩ := p
  exact (List.of_mem_zip h).2

/-- C4: for a bar layer whose groups are bar-styled with a common width ratio
`w` (each group's `style.width` defaulted to 0.8 = 4/5): under Dodge with `N`
groups the compiler's slot width is `w/N`, the group at 0-based position `i`
gets the horizontal offset `(i − (N−1)/2)·(w/N)`, the N offsets sum to 0, and
each data point becomes one rectangle spanning `x_final ± slot/2`
horizontally and `y_start` to `y_top` vertically; under Identity or Stack the
slot is the group's full width ratio and the offset is 0. -/
theorem c4_dodge_geometry (lspec : ResolvedLayer) (ld : LayerData)
    (b : BarLayer) (w : ℚ)
    (hlay : lspec.original_layer = .bar b)
    (hw : ∀ g ∈ ld.groups,
      ∃ s : BarStyle, g.style = .bar s ∧ s.width.getD (4 / 5) = w) :
    (b.position = .dodge →
      compile_layer lspec ld = ld.groups.enum.flatMap (fun p =>
        (List.range p.2.x.length).map (fun j =>
          DrawCommand.drawRect
            (p.2.x.getD j 0 + ((p.1 : ℚ) - ((ld.groups.length : ℚ) - 1) / 2) *
                (w / (ld.groups.length : ℚ)) - w / (ld.groups.length : ℚ) / 2,
             p.2.y.getD j 0)
            (p.2.x.getD j 0 + ((p.1 : ℚ) - ((ld.groups.length : ℚ) - 1) / 2) *
                (w / (ld.groups.length : ℚ)) + w / (ld.groups.length : ℚ) / 2,
             p.2.y_start.getD j 0)
            (bar_style_of p.2.style) (if j == 0 then some p.2.key else none)))) ∧
    (((List.range ld.groups.length).map (fun i : ℕ =>
        ((i : ℚ) - ((ld.groups.length : ℚ) - 1) / 2) *
          (w / (ld.groups.length : ℚ)))).sum = 0) ∧
    (b.position ≠ .dodge →
      compile_layer lspec ld = ld.groups.enum.flatMap (fun p =>
        (List.range p.2.x.length).map (fun j =>
          DrawCommand.drawRect
            (p.2.x.getD j 0 - (bar_style_of p.2.style).width.getD (4 / 5) / 2,
             p.2.y.getD j 0)
            (p.2.x.getD j 0 + (bar_style_of p.2.style).width.getD (4 / 5) / 2,
             p.2.y_start.getD j 0)
            (bar_style_of p.2.style) (if j == 0 then some p.2.key else none)))) := by
  have hlp : layer_position lspec.original_layer = b.position := by
    rw [hlay, layer_position]
  refine ⟨?_, ?_, ?_⟩
  · intro hpos
    rw [compile_layer_eq_bind, hlp, hpos]
    apply flatMap_congr
    intro p hp
    obtain ⟨s, hs, hsw⟩ := hw p.2 (snd_mem_of_mem_enum hp)
    rw [compile_group_bar_dodge ld.groups.length p.1 p.2 s hs, hsw]
    simp only [hs, bar_style_of]
  · rw [sum_map_mul_const (List.range ld.groups.length)
      (fun i : ℕ => ((i : ℚ) - ((ld.groups.length : ℚ) - 1) / 2))
      (w / (ld.groups.length : ℚ)), sum_range_centered]
    ring
  · intro hpos
    rw [compile_layer_eq_bind, hlp]
    apply flatMap_congr
    intro p hp
    obtain ⟨s, hs, hsw⟩ := hw p.2 (snd_mem_of_mem_enum hp)
    rw [compile_group_bar_nondodge b.position hpos ld.groups.length p.1 p.2 s hs]
    simp only [hs, bar_style_of]

/-- A concrete dodged two-group bar layer for the C4 witness. -/
def c4Ld : LayerData :=
  ⟨[⟨"g1", [0, 1], [3, 4], [0, 0], some ["a", "b"], .bar ⟨none, none, none⟩⟩,
    ⟨"g2", [0, 1], [5, 6], [0, 0], some ["a", "b"], .bar ⟨none, none, none⟩⟩]⟩

/-- The resolved layer for the C4 witness: a Dodge-position bar layer. -/
def c4Spec : ResolvedLayer :=
  ⟨.bar ⟨none, none, none, none, none, .dodge⟩, ⟨"x", "y", some "g", none, none, none⟩⟩

/-- Witness for C4 on two dodged groups with unspecified widths (ratio 4/5):
the two offsets sum to 0. -/
theorem c4_witness :
    ((List.range c4Ld.groups.length).map (fun i : ℕ =>
        ((i : ℚ) - ((c4Ld.groups.length : ℚ) - 1) / 2) *
          ((4 / 5 : ℚ) / (c4Ld.groups.length : ℚ)))).sum = 0 :=
  (c4_dodge_geometry c4Spec c4Ld ⟨none, none, none, none, none, .dodge⟩ (4 / 5)
    rfl (by
      intro g hg
      rcases List.mem_cons.mp hg with rfl | hg2
      · exact ⟨⟨none, none, none⟩, rfl, rfl⟩
      rcases List.mem_cons.mp hg2 with rfl | hg3
      · exact ⟨⟨none, none, none⟩, rfl, rfl⟩
      · simp at hg3)).2.1

/-! ## Transformer lemmas (C1, C3) -/

/-- Inversion of a successful `process_layer`. -/
theorem process_layer_ok_inv (parse : String → Option ℚ) (lspec : ResolvedLayer)
    (csv : CsvData) (ld : LayerData) (x_idx y_idx : Nat) (gidx : Option Nat)
    (hx : find_col_index csv.headers lspec.aesthetics.x_col = .ok x_idx)
    (hy : find_col_index csv.headers lspec.aesthetics.y_col = .ok y_idx)
    (hg : resolve_gidx csv (group_col lspec.aesthetics) = .ok gidx)
    (hok : process_layer parse lspec csv = .ok ld) :
    ld = process_layer_result parse lspec csv x_idx y_idx gidx := by
  unfold process_layer at hok
  simp only [hx, hy, hg, Bind.bind, Except.bind] at hok
  by_cases hall : csv.rows.all (fun r => (parse (r.getD y_idx "")).isSome) = true
  · simp only [hall, if_true, Except.ok.injEq] at hok
    exact hok.symm
  · simp only [hall, if_false] at hok
    simp at hok

/-- `stack_rows` preserves the row count. -/
theorem stack_rows_length (i u : Bool) (x : String → ℚ)
    (l : List (String × ℚ)) (offs : List (String × ℚ)) :
    (stack_rows i u x l offs).1.length = l.length := by
  induction l generalizing offs with
  | nil => rfl
  | cons sv rest ih => simp [stack_rows, ih]

/-- The x components of `stack_rows` output are the resolved x strings. -/
theorem stack_rows_map_x (i u : Bool) (x : String → ℚ)
    (l : List (String × ℚ)) (offs : List (String × ℚ)) :
    (stack_rows i u x l offs).1.map (·.1) = l.map (fun sv => x sv.1) := by
  induction l generalizing offs with
  | nil => rfl
  | cons sv rest ih => simp [stack_rows, ih]

/-- Unstacked processing: `y_start` is 0 and `y` is the raw value. -/
theorem stack_rows_not_stacked (u : Bool) (x : String → ℚ)
    (l : List (String × ℚ)) (offs : List (String × ℚ)) :
    stack_rows false u x l offs = (l.map (fun sv => (x sv.1, 0, sv.2)), offs) := by
  induction l generalizing offs with
  | nil => rfl
  | cons sv rest ih => simp [stack_rows, ih]

/-- `stack_rows` splits over append, threading the offsets. -/
theorem stack_rows_append (i u : Bool) (x : String → ℚ)
    (l1 l2 : List (String × ℚ)) (offs : List (String × ℚ)) :
    stack_rows i u x (l1 ++ l2) offs =
      ((stack_rows i u x l1 offs).1 ++
         (stack_rows i u x l2 (stack_rows i u x l1 offs).2).1,
       (stack_rows i u x l2 (stack_rows i u x l1 offs).2).2) := by
  induction l1 generalizing offs with
  | nil => simp [stack_rows]
  | cons sv rest ih => simp [stack_rows, ih]

/-- Every element of `build_groups` output pairs a key of the list with the
stacked rows of that key (for some intermediate offsets). -/
theorem build_groups_mem (i u : Bool) (x : String → ℚ)
    (ro : String → List (String × ℚ)) (keys : List String)
    (offs : List (String × ℚ)) (p : String × List (ℚ × ℚ × ℚ))
    (hp : p ∈ (build_groups i u x ro keys offs).1) :
    p.1 ∈ keys ∧ ∃ offs2, p.2 = (stack_rows i u x (ro p.1) offs2).1 := by
  induction keys generalizing offs with
  | nil => simp [build_groups] at hp
  | cons k ks ih =>
    simp only [build_groups, List.mem_cons] at hp
    rcases hp with rfl | hp2
    · exact ⟨List.mem_cons_self _ _, offs, rfl⟩
    · obtain ⟨h1, h2⟩ := ih _ hp2
      exact ⟨List.mem_cons_of_mem _ h1, h2⟩

/-- The keys of `build_groups` output are the input keys in order. -/
theorem build_groups_keys (i u : Bool) (x : String → ℚ)
    (ro : String → List (String × ℚ)) (keys : List String)
    (offs : List (String × ℚ)) :
    (build_groups i u x ro keys offs).1.map (·.1) = keys := by
  induction keys generalizing offs with
  | nil => rfl
  | cons k ks ih => simp [build_groups, ih]

/-- Concatenating the per-group stacked rows of `build_groups` equals one
`stack_rows` run over the concatenated group rows: the offsets thread across
groups exactly as if all rows were processed in one sequence. -/
theorem build_groups_flatten (i u : Bool) (x : String → ℚ)
    (ro : String → List (String × ℚ)) (keys : List String)
    (offs : List (String × ℚ)) :
    (build_groups i u x ro keys offs).1.flatMap (·.2) =
      (stack_rows i u x (keys.flatMap ro) offs).1 ∧
    (build_groups i u x ro keys offs).2 =
      (stack_rows i u x (keys.flatMap ro) offs).2 := by
  induction keys generalizing offs with
  | nil => exact ⟨rfl, rfl⟩
  | cons k ks ih =>
    constructor
    · simp only [build_groups, List.flatMap_cons, stack_rows_append]
      rw [(ih (stack_rows i u x (ro k) offs).2).1]
    · simp only [build_groups, List.flatMap_cons, stack_rows_append]
      rw [(ih (stack_rows i u x (ro k) offs).2).2]

/-- Re-zipping the three projected coordinate lists recovers the triples. -/
theorem zip_maps_self (l : List (ℚ × ℚ × ℚ)) :
    (l.map (·.1)).zip ((l.map (fun t => t.2.1)).zip (l.map (fun t => t.2.2))) = l := by
  induction l with
  | nil => rfl
  | cons a t ih => simp [ih]

/-- Filter-then-project distributes over `flatMap`. -/
theorem flatMap_filter_map {α β γ : Type} (l : List α) (f : α → List β)
    (p : β → Bool) (m : β → γ) :
    l.flatMap (fun a => ((f a).filter p).map m) = ((l.flatMap f).filter p).map m := by
  induction l with
  | nil => rfl
  | cons a t ih => simp [List.flatMap_cons, List.filter_append, ih]

/-- `sortStr` is a permutation of its input. -/
theorem sortStr_perm (l : List String) : (sortStr l).Perm l :=
  List.perm_insertionSort _ _

/-- The category order is lexicographically sorted. -/
theorem category_order_sorted (x_idx : Nat) (rows : List Row) :
    List.Sorted strLe (category_order x_idx rows) :=
  List.sorted_insertionSort _ _

/-- The category order has no duplicates. -/
theorem category_order_nodup (x_idx : Nat) (rows : List Row) :
    (category_order x_idx rows).Nodup :=
  ((sortStr_perm _).nodup_iff).mpr (List.nodup_dedup _)

/-- The category order holds exactly the rows' raw x strings. -/
theorem mem_category_order (x_idx : Nat) (rows : List Row) (s : String) :
    s ∈ category_order x_idx rows ↔ ∃ r ∈ rows, xstr x_idx r = s := by
  unfold category_order
  rw [(sortStr_perm _).mem_iff, List.mem_dedup, List.mem_map]

/-- The category order only depends on the multiset of rows: any input-order
permutation yields the same sorted category list. -/
theorem category_order_perm (x_idx : Nat) (rows1 rows2 : List Row)
    (h : rows1.Perm rows2) :
    category_order x_idx rows1 = category_order x_idx rows2 := by
  unfold category_order
  refine List.eq_of_perm_of_sorted ?_ (List.sorted_insertionSort _ _)
    (List.sorted_insertionSort _ _)
  exact (sortStr_perm _).trans (((h.map _).dedup).trans (sortStr_perm _).symm)

/-- Looking up a member in the enumerated category map yields its index
(shifted by the enumeration start). -/
theorem lookup_enumFrom_map (order : List String) (n : ℕ) (s : String)
    (h : s ∈ order) :
    ((order.enumFrom n).map (fun p => (p.2, (p.1 : ℚ)))).lookup s =
      some (((n + order.indexOf s : ℕ) : ℚ)) := by
  induction order generalizing n with
  | nil => simp at h
  | cons a t ih =>
    by_cases hsa : s = a
    · subst hsa
      simp [List.enumFrom_cons, List.lookup]
    · have hst : s ∈ t := by
        rcases List.mem_cons.mp h with h1 | h2
        · exact absurd h1 hsa
        · exact h2
      have hbeq : (s == a) = false := by simp [hsa]
      simp only [List.enumFrom_cons, List.map_cons, List.lookup, hbeq]
      rw [ih (n + 1) hst, List.indexOf_cons_ne _ (Ne.symm hsa)]
      congr 1
      push_cast
      ring

/-- `x_category_map` lookup of a member category is its dense index. -/
theorem lookup_x_category_map (order : List String) (s : String)
    (h : s ∈ order) :
    (x_category_map order).lookup s = some ((order.indexOf s : ℕ) : ℚ) := by
  unfold x_category_map
  have h0 := lookup_enumFrom_map order 0 s h
  simpa [List.enum] using h0

/-- Categorical x resolution of a member category is its dense index. -/
theorem resolveX_mem (parse : String → Option ℚ) (order : List String)
    (s : String) (h : s ∈ order) :
    resolveX parse true (x_category_map order) s = ((order.indexOf s : ℕ) : ℚ) := by
  simp [resolveX, lookup_x_category_map order s h]

/-- C3: for every layer the x axis is categorical iff the geometry is bar or
some x value fails to parse; when categorical, the distinct raw x strings are
sorted lexicographically with dense indices `0..N−1` (`List.indexOf` into the
sorted list), every group of the layer carries this same category list, every
row's x coordinate is its string's index, and the assignment only depends on
the multiset of rows — not their input order. -/
theorem c3_categorical_axis (parse : String → Option ℚ)
    (lspec : ResolvedLayer) (csv : CsvData) (ld : LayerData)
    (x_idx y_idx : Nat) (gidx : Option Nat)
    (hx : find_col_index csv.headers lspec.aesthetics.x_col = .ok x_idx)
    (hy : find_col_index csv.headers lspec.aesthetics.y_col = .ok y_idx)
    (hg : resolve_gidx csv (group_col lspec.aesthetics) = .ok gidx)
    (hok : process_layer parse lspec csv = .ok ld) :
    (use_categorical parse lspec.original_layer x_idx csv.rows = true ↔
      (isBarLayer lspec.original_layer = true ∨
        ∃ r ∈ csv.rows, parse (xstr x_idx r) = none)) ∧
    (∀ g ∈ ld.groups, g.x_categories =
      if use_categorical parse lspec.original_layer x_idx csv.rows then
        some (category_order x_idx csv.rows) else none) ∧
    (List.Sorted strLe (category_order x_idx csv.rows) ∧
      (category_order x_idx csv.rows).Nodup ∧
      ∀ s, s ∈ category_order x_idx csv.rows ↔ ∃ r ∈ csv.rows, xstr x_idx r = s) ∧
    (∀ s ∈ category_order x_idx csv.rows,
      (category_order x_idx csv.rows).indexOf s <
        (category_order x_idx csv.rows).length) ∧
    (use_categorical parse lspec.original_layer x_idx csv.rows = true →
      ∀ g ∈ ld.groups, g.x =
        (csv.rows.filter (fun r => rowKey gidx r == g.key)).map
          (fun r => (((category_order x_idx csv.rows).indexOf (xstr x_idx r) : ℕ) : ℚ))) ∧
    (∀ rows2 : List Row, csv.rows.Perm rows2 →
      category_order x_idx rows2 = category_order x_idx csv.rows) := by
  have hld := process_layer_ok_inv parse lspec csv ld x_idx y_idx gidx hx hy hg hok
  subst hld
  refine ⟨?_, ?_, ⟨category_order_sorted _ _, category_order_nodup _ _,
    fun s => mem_category_order _ _ s⟩, ?_, ?_, ?_⟩
  · rw [use_categorical, Bool.or_eq_true, Bool.not_eq_eq_eq_not]
    constructor
    · rintro (h1 | h2)
      · exact Or.inl h1
      · refine Or.inr ?_
        have h3 : ¬ csv.rows.all (fun r => (parse (xstr x_idx r)).isSome) = true := by
          simp [h2]
        rw [List.all_eq_true] at h3
        push_neg at h3
        obtain ⟨r, hr, hp⟩ := h3
        exact ⟨r, hr, by simpa [Option.isNone_iff_eq_none] using hp⟩
    · rintro (h1 | ⟨r, hr, hp⟩)
      · exact Or.inl h1
      · refine Or.inr ?_
        have : ¬ csv.rows.all (fun r => (parse (xstr x_idx r)).isSome) = true := by
          rw [List.all_eq_true]
          push_neg
          exact ⟨r, hr, by simp [hp]⟩
        simpa using this
  · intro g hg2
    unfold process_layer_result at hg2
    simp only [List.mem_map] at hg2
    obtain ⟨p, _, hp⟩ := hg2
    rw [← hp]
    by_cases huc :
        use_categorical parse lspec.original_layer x_idx csv.rows = true <;>
      simp [huc]
  · intro s hs
    rw [List.indexOf_lt_length]
    exact hs
  · intro huc g hg2
    unfold process_layer_result at hg2
    simp only [List.mem_map] at hg2
    obtain ⟨p, hpmem, hp⟩ := hg2
    rw [huc] at hpmem
    obtain ⟨-, offs2, hstack⟩ := build_groups_mem _ _ _ _ _ _ p hpmem
    rw [← hp]
    simp only
    rw [hstack, stack_rows_map_x]
    unfold group_rows
    rw [List.map_map]
    apply List.map_congr_left
    intro r hr
    have hrmem : r ∈ csv.rows := (List.mem_filter.mp hr).1
    have hin : xstr x_idx r ∈ category_order x_idx csv.rows :=
      (mem_category_order _ _ _).mpr ⟨r, hrmem, rfl⟩
    simp only [Function.comp, if_true]
    exact resolveX_mem parse _ _ hin
  · intro rows2 h
    exact category_order_perm x_idx rows2 csv.rows h.symm

/-- A throwaway default `GroupData` for `getD`. -/
def dfltGroup : GroupData := ⟨"", [], [], [], none, .line ⟨none, none, none⟩⟩

/-- Concrete table for the C3 witness (bar layer forces categorical x). -/
def c3Csv : CsvData :=
  ⟨["x", "y", "g"], [["b", "1", "g1"], ["a", "2", "g1"], ["a", "3", "g2"]]⟩

/-- Concrete bar layer for the C3 witness. -/
def c3Layer : ResolvedLayer :=
  ⟨.bar ⟨none, none, some (.mapped "g"), none, none, .stack⟩,
   ⟨"x", "y", some "g", none, none, none⟩⟩

/-- Witness for C3 on `c3Csv`: the first group carries the shared sorted
category list, and permuting the input rows leaves the category order
unchanged. -/
theorem c3_witness :
    (((process_layer_result parseQ c3Layer c3Csv 0 1 (some 2)).groups.getD 0
        dfltGroup).x_categories =
      if use_categorical parseQ c3Layer.original_layer 0 c3Csv.rows then
        some (category_order 0 c3Csv.rows) else none) ∧
    category_order 0 [["a", "2", "g1"], ["b", "1", "g1"], ["a", "3", "g2"]] =
      category_order 0 c3Csv.rows := by
  constructor
  · exact (c3_categorical_axis parseQ c3Layer c3Csv _ 0 1 (some 2)
      rfl rfl rfl rfl).2.1 _ (list_getD_mem _ 0 _ (by decide))
  · exact (c3_categorical_axis parseQ c3Layer c3Csv _ 0 1 (some 2)
      rfl rfl rfl rfl).2.2.2.2.2 _ (by decide)

/-! ## Stacking lemmas (C1) -/

/-- The total of a category's y values in a row list. -/
def cat_sum (c : String) (l : List (String × ℚ)) : ℚ :=
  ((l.filter (fun sv => sv.1 == c)).map (·.2)).sum

/-- After a stacked run, the running total of category `c` has grown by the
category's total in the processed rows. -/
theorem stack_offsets_lookup (x : String → ℚ) (l : List (String × ℚ))
    (offs : List (String × ℚ)) (c : String) :
    (((stack_rows true true x l offs).2).lookup c).getD 0 =
      ((offs.lookup c).getD 0) + cat_sum c l := by
  induction l generalizing offs with
  | nil => simp [stack_rows, cat_sum]
  | cons sv rest ih =>
    obtain ⟨s, v⟩ := sv
    simp only [stack_rows]
    rw [ih]
    by_cases hcs : c = s
    · subst hcs
      simp [List.lookup, cat_sum]
      ring
    · have hbeq : (c == s) = false := by simp [hcs]
      have hbeq2 : (s == c) = false := by simp [Ne.symm hcs]
      simp [List.lookup, hbeq, hbeq2, cat_sum]

/-- Closed form of a stacked run restricted to one category `c` (with all of
`c`'s rows resolving to the x coordinate `q` and only them): the `n`-th
occurrence's `y_start` is the incoming total plus the sum of the category's
first `n` values, and its `y` additionally includes its own value. -/
theorem stack_filtered_get (x : String → ℚ) (l : List (String × ℚ))
    (offs : List (String × ℚ)) (c : String) (q : ℚ)
    (hq : ∀ sv ∈ l, (x sv.1 = q ↔ sv.1 = c)) (n : ℕ) :
    ((stack_rows true true x l offs).1.filter (fun t => t.1 == q)).get? n =
      ((l.filter (fun sv => sv.1 == c)).get? n).map (fun sv =>
        (q, (offs.lookup c).getD 0 +
              (((l.filter (fun sv => sv.1 == c)).map (·.2)).take n).sum,
            (offs.lookup c).getD 0 +
              (((l.filter (fun sv => sv.1 == c)).map (·.2)).take (n + 1)).sum)) := by
  induction l generalizing offs n with
  | nil => simp [stack_rows]
  | cons sv rest ih =>
    obtain ⟨s, v⟩ := sv
    have hhead := hq (s, v) (List.mem_cons_self _ _)
    have hqrest : ∀ sv ∈ rest, (x sv.1 = q ↔ sv.1 = c) :=
      fun sv hsv => hq sv (List.mem_cons_of_mem _ hsv)
    by_cases hsc : s = c
    · subst hsc
      have hxq : x s = q := hhead.mpr rfl
      have hxqb : (x s == q) = true := by simp [hxq]
      have hscb : (s == s) = true := by simp
      simp only [stack_rows, List.filter_cons, hxqb, hscb, if_true]
      cases n with
      | zero =>
        simp only [List.get?_cons_zero, Option.map_some', List.map_cons,
          List.take_zero, List.sum_nil, List.take_succ_cons, List.sum_cons,
          List.take, List.sum_nil]
        refine congrArg some ?_
        simp only [Prod.mk.injEq]
        exact ⟨hxq, by ring, by ring⟩
      | succ m =>
        simp only [List.get?_cons_succ]
        rw [ih _ hqrest]
        have hlook : ((((s, (offs.lookup s).getD 0 + v) :: offs).lookup s).getD 0) =
            (offs.lookup s).getD 0 + v := by
          simp [List.lookup]
        cases hrest : (rest.filter (fun sv => sv.1 == s)).get? m with
        | none => simp [hrest]
        | some sv2 =>
          simp only [hrest, Option.map_some', List.map_cons, List.take_succ_cons,
            List.sum_cons]
          refine congrArg some ?_
          simp only [Prod.mk.injEq, hlook, if_true]
          refine ⟨by trivial, by ring, by ring⟩
    · have hxnq : ¬ x s = q := fun hx => hsc (hhead.mp hx)
      have hxqb : (x s == q) = false := by simp [hxnq]
      have hscb : (s == c) = false := by simp [hsc]
      have hcsb : (c == s) = false := by
        simp only [beq_eq_false_iff_ne, ne_eq]
        exact fun h => hsc h.symm
      simp only [stack_rows, List.filter_cons, hxqb, hscb, Bool.false_eq_true,
        if_false, if_true]
      rw [ih _ hqrest]
      have hlook : ((((s, (offs.lookup s).getD 0 + v) :: offs).lookup c).getD 0) =
          (offs.lookup c).getD 0 := by
        simp [List.lookup, hcsb]
      rw [hlook]

/-- Pointwise `get?`-presence equality forces equal lengths. -/
theorem length_eq_of_get? {α β : Type} (l1 : List α) (l2 : List β)
    (h : ∀ n, (l1.get? n).isSome = (l2.get? n).isSome) :
    l1.length = l2.length := by
  by_contra hne
  rcases Nat.lt_trichotomy l1.length l2.length with hlt | heq | hgt
  · have h1 : l1.get? l1.length = none := List.get?_eq_none.mpr (Nat.le_refl _)
    have h2 := h l1.length
    rw [h1, List.get?_eq_get hlt] at h2
    simp at h2
  · exact hne heq
  · have h1 : l2.get? l2.length = none := List.get?_eq_none.mpr (Nat.le_refl _)
    have h2 := h l2.length
    rw [h1, List.get?_eq_get hgt] at h2
    simp at h2

/-- A stacked run emits exactly one triple per occurrence of the category. -/
theorem stack_filtered_length (x : String → ℚ) (l : List (String × ℚ))
    (offs : List (String × ℚ)) (c : String) (q : ℚ)
    (hq : ∀ sv ∈ l, (x sv.1 = q ↔ sv.1 = c)) :
    ((stack_rows true true x l offs).1.filter (fun t => t.1 == q)).length =
      (l.filter (fun sv => sv.1 == c)).length := by
  apply length_eq_of_get?
  intro n
  rw [stack_filtered_get x l offs c q hq n]
  simp

/-- The last emitted `y` of a category is the incoming total plus the
category's full total in the processed rows. -/
theorem stack_filtered_getLast (x : String → ℚ) (l : List (String × ℚ))
    (offs : List (String × ℚ)) (c : String) (q : ℚ)
    (hq : ∀ sv ∈ l, (x sv.1 = q ↔ sv.1 = c))
    (hne : l.filter (fun sv => sv.1 == c) ≠ []) :
    (((stack_rows true true x l offs).1.filter (fun t => t.1 == q)).map
        (fun t => t.2.2)).getLast? =
      some ((offs.lookup c).getD 0 + cat_sum c l) := by
  have hKpos : 0 < (l.filter (fun sv => sv.1 == c)).length :=
    List.length_pos.mpr hne
  have hlen := stack_filtered_length x l offs c q hq
  rw [List.getLast?_eq_get?, List.length_map, hlen, List.get?_map,
    stack_filtered_get x l offs c q hq]
  cases hget2 : (l.filter (fun sv => sv.1 == c)).get?
      ((l.filter (fun sv => sv.1 == c)).length - 1) with
  | none =>
    rw [List.get?_eq_none] at hget2
    omega
  | some sv =>
    simp only [Option.map_some']
    congr 1
    have hsucc : (l.filter (fun sv => sv.1 == c)).length - 1 + 1 =
        (l.filter (fun sv => sv.1 == c)).length := Nat.succ_pred_eq_of_pos hKpos
    rw [hsucc]
    have hvl : ((l.filter (fun sv => sv.1 == c)).map (·.2)).length =
        (l.filter (fun sv => sv.1 == c)).length := List.length_map _ _
    rw [← hvl, List.take_length]
    rfl

/-- A list whose `n`-th entry is the sum of the first `n` values of a
nonnegative list is non-decreasing. -/
theorem chain'_of_partial_sums (vals lq : List ℚ)
    (hget : ∀ n, lq.get? n = (vals.get? n).map (fun _ => (vals.take n).sum))
    (hnn : ∀ v ∈ vals, 0 ≤ v) : List.Chain' (· ≤ ·) lq := by
  have hlen : lq.length = vals.length := by
    apply length_eq_of_get?
    intro n
    rw [hget n]
    simp
  rw [List.chain'_iff_get]
  intro i hi
  have hi1 : i < vals.length := by omega
  have hi2 : i + 1 < lq.length := by omega
  have h1 : lq.get? i = some ((vals.take i).sum) := by
    rw [hget, List.get?_eq_get hi1]
    rfl
  have h2 : lq.get? (i + 1) = some ((vals.take (i + 1)).sum) := by
    rw [hget, List.get?_eq_get (show i + 1 < vals.length by omega)]
    rfl
  have hg1 : lq.get ⟨i, by omega⟩ = (vals.take i).sum := by
    have hh := List.get?_eq_get (l := lq) (n := i) (by omega)
    rw [h1] at hh
    exact (Option.some.injEq _ _ ▸ hh).symm
  have hg2 : lq.get ⟨i + 1, hi2⟩ = (vals.take (i + 1)).sum := by
    have hh := List.get?_eq_get (l := lq) (n := i + 1) hi2
    rw [h2] at hh
    exact (Option.some.injEq _ _ ▸ hh).symm
  rw [hg1, hg2, List.sum_take_succ _ _ hi1]
  have hv : (0 : ℚ) ≤ vals[i] := hnn _ (List.getElem_mem hi1)
  linarith

/-- The `(y_start, y)` pairs of a layer's rows at x coordinate `q`, taken
group by group in group order, row by row within each group. -/
def occ_pairs (q : ℚ) (ld : LayerData) : List (ℚ × ℚ) :=
  ld.groups.flatMap (fun g =>
    ((g.x.zip (g.y_start.zip g.y)).filter (fun t => t.1 == q)).map (·.2))

/-- On a stacked categorical layer, the occurrence pairs of a coordinate are
the filtered output of one stacked run over the concatenated groups' rows. -/
theorem occ_pairs_process_layer (parse : String → Option ℚ)
    (lspec : ResolvedLayer) (csv : CsvData) (x_idx y_idx : Nat)
    (gidx : Option Nat) (q : ℚ)
    (hstk : is_stacked_layer lspec.original_layer = true)
    (hcat : use_categorical parse lspec.original_layer x_idx csv.rows = true) :
    occ_pairs q (process_layer_result parse lspec csv x_idx y_idx gidx) =
      ((stack_rows true true
          (resolveX parse true (x_category_map (category_order x_idx csv.rows)))
          ((sorted_group_keys gidx csv.rows).flatMap
            (group_rows parse gidx x_idx y_idx csv.rows)) []).1.filter
        (fun t => t.1 == q)).map (fun t => t.2) := by
  unfold occ_pairs process_layer_result
  rw [hstk, hcat]
  simp only [if_true]
  rw [List.flatMap_map]
  have hinner : ∀ p : String × List (ℚ × ℚ × ℚ),
      (((p.2.map (·.1)).zip ((p.2.map (fun t => t.2.1)).zip
          (p.2.map (fun t => t.2.2)))).filter (fun t => t.1 == q)).map (·.2) =
        ((p.2.filter (fun t => t.1 == q)).map (·.2)) := by
    intro p
    rw [zip_maps_self]
  calc ((build_groups true true
          (resolveX parse true (x_category_map (category_order x_idx csv.rows)))
          (group_rows parse gidx x_idx y_idx csv.rows)
          (sorted_group_keys gidx csv.rows) []).1).flatMap _
      = ((build_groups true true
          (resolveX parse true (x_category_map (category_order x_idx csv.rows)))
          (group_rows parse gidx x_idx y_idx csv.rows)
          (sorted_group_keys gidx csv.rows) []).1).flatMap
            (fun p => ((p.2.filter (fun t => t.1 == q)).map (·.2))) := by
        apply flatMap_congr
        intro p _
        exact hinner p
    _ = (((build_groups true true
          (resolveX parse true (x_category_map (category_order x_idx csv.rows)))
          (group_rows parse gidx x_idx y_idx csv.rows)
          (sorted_group_keys gidx csv.rows) []).1.flatMap (fun p => p.2)).filter
            (fun t => t.1 == q)).map (fun t => t.2) :=
        flatMap_filter_map
          (build_groups true true
            (resolveX parse true (x_category_map (category_order x_idx csv.rows)))
            (group_rows parse gidx x_idx y_idx csv.rows)
            (sorted_group_keys gidx csv.rows) []).1
          (fun p : String × List (ℚ × ℚ × ℚ) => p.2)
          (fun t => t.1 == q) (fun t => t.2)
    _ = _ := by
        rw [(build_groups_flatten _ _ _ _ _ _).1]

/-- Every row extracted for a group carries some row's raw x string. -/
theorem group_rows_fst_mem (parse : String → Option ℚ) (gidx : Option Nat)
    (x_idx y_idx : Nat) (rows : List Row) (key : String) (sv : String × ℚ)
    (h : sv ∈ group_rows parse gidx x_idx y_idx rows key) :
    ∃ r ∈ rows, sv.1 = xstr x_idx r := by
  unfold group_rows at h
  rw [List.mem_map] at h
  obtain ⟨r, hr, rfl⟩ := h
  exact ⟨r, (List.mem_filter.mp hr).1, rfl⟩

/-- C1 (amended): for a Stack-position bar layer, rows are processed group by
group in sorted-group-key order with a per-category running total (default
0): the `n`-th occurrence of a category across the layer gets
`y_start` = the sum of the category's first `n` values and `y` = that sum
plus its own value (the stored new total); consequently the category's
`y_start` sequence across groups is non-decreasing PROVIDED the category's
values are nonnegative — the unqualified claim fails on negative values (see
the counterexample) — and the last occurrence's `y` equals the sum of all
groups' values for the category; under Identity or Dodge every row has
`y_start = 0` and `y` = its raw value. -/
theorem c1_stack_running_totals (parse : String → Option ℚ)
    (lspec : ResolvedLayer) (csv : CsvData) (ld : LayerData) (b : BarLayer)
    (x_idx y_idx : Nat) (gidx : Option Nat) (c : String)
    (hlay : lspec.original_layer = .bar b)
    (hx : find_col_index csv.headers lspec.aesthetics.x_col = .ok x_idx)
    (hy : find_col_index csv.headers lspec.aesthetics.y_col = .ok y_idx)
    (hg : resolve_gidx csv (group_col lspec.aesthetics) = .ok gidx)
    (hok : process_layer parse lspec csv = .ok ld)
    (hc : c ∈ category_order x_idx csv.rows) :
    (b.position = .stack →
      ∀ n pr,
        (occ_pairs (((category_order x_idx csv.rows).indexOf c : ℕ) : ℚ) ld).get? n =
            some pr →
          pr.1 = ((((((sorted_group_keys gidx csv.rows).flatMap
                (group_rows parse gidx x_idx y_idx csv.rows)).filter
                  (fun sv => sv.1 == c)).map (·.2)).take n).sum) ∧
          pr.2 = ((((((sorted_group_keys gidx csv.rows).flatMap
                (group_rows parse gidx x_idx y_idx csv.rows)).filter
                  (fun sv => sv.1 == c)).map (·.2)).take (n + 1)).sum)) ∧
    (b.position = .stack →
      (∀ sv ∈ (sorted_group_keys gidx csv.rows).flatMap
          (group_rows parse gidx x_idx y_idx csv.rows), sv.1 = c → 0 ≤ sv.2) →
      List.Chain' (· ≤ ·)
        ((occ_pairs (((category_order x_idx csv.rows).indexOf c : ℕ) : ℚ) ld).map
          (·.1))) ∧
    (b.position = .stack →
      occ_pairs (((category_order x_idx csv.rows).indexOf c : ℕ) : ℚ) ld ≠ [] →
      ((occ_pairs (((category_order x_idx csv.rows).indexOf c : ℕ) : ℚ) ld).map
          (·.2)).getLast? =
        some (cat_sum c ((sorted_group_keys gidx csv.rows).flatMap
          (group_rows parse gidx x_idx y_idx csv.rows)))) ∧
    (b.position ≠ .stack →
      ∀ g ∈ ld.groups,
        g.y_start = List.replicate g.x.length 0 ∧
        g.y = (group_rows parse gidx x_idx y_idx csv.rows g.key).map (·.2)) := by
  have hld := process_layer_ok_inv parse lspec csv ld x_idx y_idx gidx hx hy hg hok
  subst hld
  have hcat : use_categorical parse lspec.original_layer x_idx csv.rows = true := by
    simp [use_categorical, hlay, isBarLayer]
  have hqiff : ∀ sv ∈ (sorted_group_keys gidx csv.rows).flatMap
      (group_rows parse gidx x_idx y_idx csv.rows),
      (resolveX parse true (x_category_map (category_order x_idx csv.rows)) sv.1 =
          (((category_order x_idx csv.rows).indexOf c : ℕ) : ℚ) ↔ sv.1 = c) := by
    intro sv hsv
    rw [List.mem_flatMap] at hsv
    obtain ⟨k, _, hsvk⟩ := hsv
    obtain ⟨r, hr, hfst⟩ := group_rows_fst_mem parse gidx x_idx y_idx csv.rows k sv hsvk
    have hmem : sv.1 ∈ category_order x_idx csv.rows := by
      rw [hfst]
      exact (mem_category_order _ _ _).mpr ⟨r, hr, rfl⟩
    rw [resolveX_mem parse _ _ hmem, Nat.cast_inj]
    exact List.indexOf_inj hmem hc
  refine ⟨?_, ?_, ?_, ?_⟩
  · intro hpos n pr hpr2
    have hstk : is_stacked_layer lspec.original_layer = true := by
      simp [is_stacked_layer, hlay, hpos]
    rw [occ_pairs_process_layer parse lspec csv x_idx y_idx gidx _ hstk hcat] at hpr2
    rw [List.get?_map, stack_filtered_get _ _ _ c _ hqiff n] at hpr2
    cases hget : ((sorted_group_keys gidx csv.rows).flatMap
        (group_rows parse gidx x_idx y_idx csv.rows)).filter
          (fun sv => sv.1 == c) |>.get? n with
    | none => rw [hget] at hpr2; simp at hpr2
    | some sv =>
      rw [hget] at hpr2
      simp only [Option.map_some', Option.some.injEq] at hpr2
      rw [← hpr2]
      constructor <;> simp [List.lookup]
  · intro hpos hnn
    have hstk : is_stacked_layer lspec.original_layer = true := by
      simp [is_stacked_layer, hlay, hpos]
    rw [occ_pairs_process_layer parse lspec csv x_idx y_idx gidx _ hstk hcat,
      List.map_map]
    apply chain'_of_partial_sums
      (((((sorted_group_keys gidx csv.rows).flatMap
        (group_rows parse gidx x_idx y_idx csv.rows)).filter
          (fun sv => sv.1 == c)).map (·.2)))
    · intro n
      rw [List.get?_map, stack_filtered_get _ _ _ c _ hqiff n, List.get?_map]
      cases hget : ((sorted_group_keys gidx csv.rows).flatMap
          (group_rows parse gidx x_idx y_idx csv.rows)).filter
            (fun sv => sv.1 == c) |>.get? n with
      | none => rfl
      | some sv => simp [List.lookup, Function.comp]
    · intro v hv
      rw [List.mem_map] at hv
      obtain ⟨sv, hsv, rfl⟩ := hv
      rw [List.mem_filter] at hsv
      exact hnn sv hsv.1 (by simpa using hsv.2)
  · intro hpos hne
    have hstk : is_stacked_layer lspec.original_layer = true := by
      simp [is_stacked_layer, hlay, hpos]
    rw [occ_pairs_process_layer parse lspec csv x_idx y_idx gidx _ hstk hcat] at hne ⊢
    rw [List.map_map]
    have hne2 : ((sorted_group_keys gidx csv.rows).flatMap
        (group_rows parse gidx x_idx y_idx csv.rows)).filter
          (fun sv => sv.1 == c) ≠ [] := by
      intro hfe
      apply hne
      rw [← List.length_eq_zero] at hfe ⊢
      rw [List.length_map, stack_filtered_length _ _ _ c _ hqiff, hfe]
    have hfin := stack_filtered_getLast
      (resolveX parse true (x_category_map (category_order x_idx csv.rows)))
      ((sorted_group_keys gidx csv.rows).flatMap
        (group_rows parse gidx x_idx y_idx csv.rows)) [] c
      (((category_order x_idx csv.rows).indexOf c : ℕ) : ℚ) hqiff hne2
    simp only [List.lookup, Option.getD_none, zero_add] at hfin
    convert hfin using 2
  · intro hpos g hgmem
    have hstk : is_stacked_layer lspec.original_layer = false := by
      rw [hlay, is_stacked_layer]
      cases hb : b.position <;> simp_all
    unfold process_layer_result at hgmem
    rw [hstk, hcat] at hgmem
    simp only [if_true, List.mem_map] at hgmem
    obtain ⟨p, hpmem, hp⟩ := hgmem
    obtain ⟨-, offs2, hstack⟩ := build_groups_mem _ _ _ _ _ _ p hpmem
    rw [stack_rows_not_stacked] at hstack
    rw [← hp]
    simp only
    constructor
    · rw [hstack, List.map_map, List.map_map, List.length_map]
      apply List.eq_replicate.mpr
      refine ⟨by rw [List.length_map], ?_⟩
      intro y hy
      rw [List.mem_map] at hy
      obtain ⟨sv, _, rfl⟩ := hy
      rfl
    · rw [hstack, List.map_map]
      rfl

/-- Concrete stacked-bar input for the C1 counterexample: category `"a"` has
value −1 in group `g1` and value 2 in group `g2`. -/
def c1Csv : CsvData := ⟨["x", "y", "g"], [["a", "-1", "g1"], ["a", "2", "g2"]]⟩

/-- The stacked bar layer (color-mapped to `"g"`) used by C1's concrete
inputs. -/
def c1Layer : ResolvedLayer :=
  ⟨.bar ⟨none, none, some (.mapped "g"), none, none, .stack⟩,
   ⟨"x", "y", some "g", none, none, none⟩⟩

/-- C1 counterexample: with a negative value, category `"a"`'s `y_start`
sequence across the sorted groups is `[0, −1]` — strictly decreasing —
refuting the claim's unqualified "non-decreasing" assertion (the running
total mechanism is intact: 0 + (−1) = −1 is stored and becomes group `g2`'s
`y_start`). -/
theorem c1_counterexample :
    (process_layer parseQ c1Layer c1Csv).toOption.map
        (fun ld => ld.groups.map (fun g => (g.key, g.y_start, g.y))) =
      some [("g1", [0], [-1]), ("g2", [-1], [1])] ∧
    ¬ List.Chain' (· ≤ ·) [(0 : ℚ), -1] := by
  constructor
  · have h1 : process_layer parseQ c1Layer c1Csv =
        .ok (process_layer_result parseQ c1Layer c1Csv 0 1 (some 2)) := rfl
    rw [h1]
    have h2 : sorted_group_keys (some 2) c1Csv.rows = ["g1", "g2"] := by decide
    have h3 : category_order 0 c1Csv.rows = ["a"] := by decide
    have h5 : parseQ "-1" = some (-1) := by
      show some (-((1 : ℕ) : ℚ)) = some (-1)
      norm_num
    have h6 : parseQ "2" = some 2 := by
      show some (((2 : ℕ) : ℚ)) = some 2
      norm_num
    simp only [Except.toOption, Option.map_some', Option.some.injEq,
      process_layer_result, use_categorical, isBarLayer, is_stacked_layer,
      beq_self_eq_true, c1Layer, h2, h3,
      Bool.true_or, if_true, build_groups, stack_rows, group_rows, c1Csv,
      rowKey, xstr, resolveX, x_category_map, List.filter, List.map,
      List.enum, List.enumFrom, List.lookup, List.flatMap]
    norm_num [List.lookup, h5, h6]
  · intro h
    have := List.chain'_cons.mp h
    norm_num at this

/-- Concrete all-nonnegative stacked-bar input for the C1 witness. -/
def c1wCsv : CsvData := ⟨["x", "y", "g"], [["a", "1", "g1"], ["a", "2", "g2"]]⟩

/-- Witness for C1 (amended) on `c1wCsv`: the `y_start` occurrence sequence
of `"a"` is non-decreasing and the last occurrence's `y` is the category's
total. -/
theorem c1_witness :
    List.Chain' (· ≤ ·)
      ((occ_pairs (((category_order 0 c1wCsv.rows).indexOf "a" : ℕ) : ℚ)
        (process_layer_result parseQ c1Layer c1wCsv 0 1 (some 2))).map (·.1)) ∧
    ((occ_pairs (((category_order 0 c1wCsv.rows).indexOf "a" : ℕ) : ℚ)
        (process_layer_result parseQ c1Layer c1wCsv 0 1 (some 2))).map (·.2)).getLast? =
      some (cat_sum "a" ((sorted_group_keys (some 2) c1wCsv.rows).flatMap
        (group_rows parseQ (some 2) 0 1 c1wCsv.rows))) := by
  constructor
  · exact (c1_stack_running_totals parseQ c1Layer c1wCsv _
      ⟨none, none, some (.mapped "g"), none, none, .stack⟩ 0 1 (some 2) "a"
      rfl rfl rfl rfl rfl (by decide)).2.1 rfl (by decide)
  · exact (c1_stack_running_totals parseQ c1Layer c1wCsv _
      ⟨none, none, some (.mapped "g"), none, none, .stack⟩ 0 1 (some 2) "a"
      rfl rfl rfl rfl rfl (by decide)).2.2.1 rfl (by decide)

end GramGraph
